import Mathlib

/-!
Shallow embedding of the text-layout / path-synthesis engine of the
`font-to-svg` repository (`src/services/textToSvg.ts`,
`src/services/envelopeTransform.ts`, and the `FontCache` bundled with
`textToSvg.ts`), together with theorems settling the specification claims.

Numbers that the TypeScript code manipulates as IEEE doubles are modelled as
exact rationals (`ℚ`); the trigonometric arc transform is modelled over `ℝ`.
JavaScript truthiness (`options.foo || dflt`, `if (x)`) is made explicit via
`jsOrQ` / `jsTruthyQ`.
-/

namespace FontToSvg

/-- `v || d` on an optional number, with JavaScript truthiness:
`undefined` and `0` both fall back to the default. -/
def jsOrQ (v : Option ℚ) (d : ℚ) : ℚ :=
  match v with
  | none => d
  | some q => if q = 0 then d else q

/-- JavaScript truthiness of an optional number: present and non-zero. -/
def jsTruthyQ (v : Option ℚ) : Bool :=
  match v with
  | none => false
  | some q => q ≠ 0

/-- `v || d` on an optional string: `undefined` and `""` fall back. -/
def jsOrStr (v : Option String) (d : String) : String :=
  match v with
  | none => d
  | some s => if s = "" then d else s

/-- One glyph of a parsed font (opentype.js `Glyph`): its unicode code point,
advance width in font units, and the bounding box of `glyph.getPath(0, 0, s)`
per unit of font size `s` (path coordinates scale linearly in `s`). -/
structure Glyph where
  unicode : Nat
  advanceWidth : ℚ
  bx1 : ℚ
  by1 : ℚ
  bx2 : ℚ
  by2 : ℚ
deriving DecidableEq

/-- A parsed font (opentype.js `Font`): global metrics in font units,
per-character glyph lookup and kerning lookup. -/
structure Font where
  unitsPerEm : ℚ
  ascender : ℚ
  descender : ℚ
  charToGlyph : Char → Glyph
  getKerningValue : Glyph → Glyph → ℚ

/-- `font.stringToGlyphs(text)`: one glyph per character. -/
def Font.stringToGlyphs (f : Font) (text : List Char) : List Glyph :=
  text.map f.charToGlyph

/-- Arc options inside `TextToSVGOptions.envelope.arc`. -/
structure ArcOptions where
  angle : ℚ
  textWidth : Option ℚ := none
  centerX : Option ℚ := none
  centerY : Option ℚ := none
deriving DecidableEq

/-- Envelope options (`TextToSVGOptions.envelope`). -/
structure EnvelopeOptions where
  arc : Option ArcOptions := none
deriving DecidableEq

/-- The options bag accepted by the layout engine (`TextToSVGOptions`).
Absent fields are `none`. The `attributes` pass-through map plays no role in
layout and is omitted. -/
structure TextToSVGOptions where
  fontSize : Option ℚ := none
  letterSpacing : Option ℚ := none
  tracking : Option ℚ := none
  kerning : Option Bool := none
  anchor : Option String := none
  x : Option ℚ := none
  y : Option ℚ := none
  envelope : Option EnvelopeOptions := none
  lineHeight : Option ℚ := none
  textAlign : Option String := none
  writingMode : Option String := none
deriving DecidableEq

/-- The per-glyph letter-spacing / tracking term of the width loop:
`if (options.letterSpacing) width += letterSpacing * fontSize
 else if (options.tracking) width += (tracking / 1000) * fontSize`. -/
def spacingTerm (o : TextToSVGOptions) (fontSize : ℚ) : ℚ :=
  if jsTruthyQ o.letterSpacing then (o.letterSpacing.getD 0) * fontSize
  else if jsTruthyQ o.tracking then ((o.tracking.getD 0) / 1000) * fontSize
  else 0

/-- The loop body of `TextToSVG.getWidth`, recursing over the glyph list.
Each glyph contributes its advance width (if truthy), the kerning with the
next glyph (when kerning is on and a next glyph exists), and the per-glyph
letter-spacing / tracking term. -/
def getWidthAux (f : Font) (o : TextToSVGOptions) (fontSize fontScale : ℚ)
    (kern : Bool) : List Glyph → ℚ
  | [] => 0
  | g :: rest =>
    (if g.advanceWidth ≠ 0 then g.advanceWidth * fontScale else 0)
    + (if kern then
        match rest with
        | g2 :: _ => f.getKerningValue g g2 * fontScale
        | [] => 0
      else 0)
    + spacingTerm o fontSize
    + getWidthAux f o fontSize fontScale kern rest

/-- `TextToSVG.getWidth(text, options)`. -/
def getWidth (f : Font) (text : List Char) (o : TextToSVGOptions) : ℚ :=
  let fontSize := jsOrQ o.fontSize 72
  let kern := o.kerning.getD true
  let fontScale := (1 / f.unitsPerEm) * fontSize
  getWidthAux f o fontSize fontScale kern (f.stringToGlyphs text)

/-- `TextToSVG.getHeight(fontSize)`. -/
def getHeight (f : Font) (fontSize : ℚ) : ℚ :=
  (f.ascender - f.descender) * ((1 / f.unitsPerEm) * fontSize)

/-- Width of a single line as the specification words it: the sum over all
glyphs of `advanceWidth × fontScale`, plus — when kerning is enabled — the
kerning of each adjacent pair `× fontScale`, plus, for every glyph including
the last, the letter-spacing (else tracking) term. -/
def specWidth (f : Font) (text : List Char) (o : TextToSVGOptions) : ℚ :=
  let fontSize := jsOrQ o.fontSize 72
  let kern := o.kerning.getD true
  let fontScale := (1 / f.unitsPerEm) * fontSize
  let glyphs := f.stringToGlyphs text
  (glyphs.map (fun g => g.advanceWidth * fontScale)).sum
  + (if kern then
      ((glyphs.zip glyphs.tail).map
        (fun p => f.getKerningValue p.1 p.2 * fontScale)).sum
    else 0)
  + glyphs.length * spacingTerm o fontSize

lemma getWidthAux_eq_spec (f : Font) (o : TextToSVGOptions)
    (fontSize fontScale : ℚ) (kern : Bool) (gs : List Glyph) :
    getWidthAux f o fontSize fontScale kern gs
      = (gs.map (fun g => g.advanceWidth * fontScale)).sum
        + (if kern then
            ((gs.zip gs.tail).map
              (fun p => f.getKerningValue p.1 p.2 * fontScale)).sum
          else 0)
        + gs.length * spacingTerm o fontSize := by
  induction gs with
  | nil => simp [getWidthAux]
  | cons g rest ih =>
    have hadv : (if g.advanceWidth ≠ 0 then g.advanceWidth * fontScale else 0)
        = g.advanceWidth * fontScale := by
      by_cases h : g.advanceWidth = 0 <;> simp [h]
    simp only [getWidthAux]
    rw [hadv, ih]
    cases rest with
    | nil => cases kern <;> simp
    | cons g2 rest2 =>
      cases kern <;> simp <;> ring

/-! ### Anchor resolver (`parseAnchorOption`) -/

/-- Case-insensitive match of the lowercase token `t` against the front of
the input, as a JavaScript regex alternative with the `i` flag: on success
the matched characters of the input are returned with their original case. -/
def matchTokenCI : List Char → List Char → Option (List Char)
  | [], _ => some []
  | _ :: _, [] => none
  | t :: ts, c :: cs =>
    if c.toLower = t then (matchTokenCI ts cs).map (c :: ·) else none

/-- Try the regex alternatives in order at the current position. -/
def matchAltCI (toks : List (List Char)) (s : List Char) : Option (List Char) :=
  toks.findSome? (fun t => matchTokenCI t s)

/-- The first match of `anchor.match(/t1|t2|.../gi)`: scan positions left to
right, trying the alternatives in order at each position. -/
def scanFirstCI (toks : List (List Char)) : List Char → Option (List Char)
  | [] => none
  | c :: cs =>
    match matchAltCI toks (c :: cs) with
    | some m => some m
    | none => scanFirstCI toks cs

/-- The horizontal anchor tokens `left|center|right`. -/
def hAnchorTokens : List (List Char) :=
  ["left".toList, "center".toList, "right".toList]

/-- The vertical anchor tokens `baseline|top|bottom|middle`. -/
def vAnchorTokens : List (List Char) :=
  ["baseline".toList, "top".toList, "bottom".toList, "middle".toList]

/-- `parseAnchorOption(anchor)`: first case-insensitive match of each axis'
tokens (the matched substring itself, case preserved), with defaults
`left` / `baseline` when no token occurs. -/
def parseAnchorOption (anchor : String) : String × String :=
  let horizontal :=
    match scanFirstCI hAnchorTokens anchor.toList with
    | some m => String.mk m
    | none => "left"
  let vertical :=
    match scanFirstCI vAnchorTokens anchor.toList with
    | some m => String.mk m
    | none => "baseline"
  (horizontal, vertical)

/-! ### Metrics structures -/

/-- The error message of the `switch` default branches in the metrics
calculator. -/
def unknownAnchorMsg (a : String) : String := "Unknown anchor option: " ++ a

/-- Single-line metrics (`SingleLineMetrics`). -/
structure SLMetrics where
  x : ℚ
  y : ℚ
  baseline : ℚ
  width : ℚ
  height : ℚ
  ascender : ℚ
  descender : ℚ
deriving DecidableEq, Inhabited

/-- Per-line metrics (`LineMetrics`). -/
structure LineM where
  text : List Char
  x : ℚ
  y : ℚ
  baseline : ℚ
  width : ℚ
  height : ℚ
  ascender : ℚ
  descender : ℚ
deriving DecidableEq, Inhabited

/-- Multi-line metrics (`MultilineMetrics`). -/
structure MLMetrics where
  lines : List LineM
  totalWidth : ℚ
  totalHeight : ℚ
  x : ℚ
  y : ℚ
  lineHeight : ℚ
  baseline : ℚ
deriving DecidableEq, Inhabited

/-- Aggregate metrics (`TextMetrics`), with per-line metrics present for
multi-line input. -/
structure TMetrics where
  x : ℚ
  y : ℚ
  baseline : ℚ
  width : ℚ
  height : ℚ
  ascender : ℚ
  descender : ℚ
  lines : Option (List LineM) := none
deriving DecidableEq, Inhabited

/-- The `switch (anchor.horizontal)` of the metrics calculator: the amount
subtracted from the requested x, or the thrown error. -/
def anchorShiftX (h : String) (width : ℚ) : Except String ℚ :=
  if h = "left" then .ok 0
  else if h = "center" then .ok (width / 2)
  else if h = "right" then .ok width
  else .error (unknownAnchorMsg h)

/-- The `switch (anchor.vertical)` of the metrics calculator: the amount
subtracted from the requested y, or the thrown error. -/
def anchorShiftY (v : String) (ascender height : ℚ) : Except String ℚ :=
  if v = "baseline" then .ok ascender
  else if v = "top" then .ok 0
  else if v = "middle" then .ok (height / 2)
  else if v = "bottom" then .ok height
  else .error (unknownAnchorMsg v)

/-! ### Single-line and vertical metrics -/

/-- The single-line horizontal tail of `TextToSVG.getMetrics` (after the
multiline and vertical dispatch). -/
def getSingleLineMetrics (f : Font) (text : List Char) (o : TextToSVGOptions) :
    Except String SLMetrics := do
  let fontSize := jsOrQ o.fontSize 72
  let anchor := parseAnchorOption (o.anchor.getD "")
  let width := getWidth f text o
  let height := getHeight f fontSize
  let fontScale := (1 / f.unitsPerEm) * fontSize
  let ascender := f.ascender * fontScale
  let descender := f.descender * fontScale
  let xShift ← anchorShiftX anchor.1 width
  let yShift ← anchorShiftY anchor.2 ascender height
  let x := (o.x.getD 0) - xShift
  let y := (o.y.getD 0) - yShift
  pure { x := x, y := y, baseline := y + ascender, width := width,
         height := height, ascender := ascender, descender := descender }

/-- The character code tested by the vertical layout:
`String.fromCharCode(glyph.unicode || 0).charCodeAt(0)` (a UTF-16 code
unit, hence mod 2^16). -/
def verticalCharCode (g : Glyph) : Nat := g.unicode % 65536

/-- The loop body of `TextToSVG.getVerticalHeight`: printable glyphs
(char code > 32) contribute their outline bounding-box height plus the
inter-character spacing (except after the last glyph) plus the
letter-spacing / tracking term; whitespace glyphs with non-zero advance
contribute `0.6 × fontSize`. -/
def getVerticalHeightAux (o : TextToSVGOptions) (fontSize charSpacing : ℚ) :
    List Glyph → ℚ
  | [] => 0
  | g :: rest =>
    (if verticalCharCode g > 32 then
      (g.by2 * fontSize - g.by1 * fontSize)
      + (if rest ≠ [] then charSpacing else 0)
      + spacingTerm o fontSize
    else if g.advanceWidth ≠ 0 then fontSize * 0.6
    else 0)
    + getVerticalHeightAux o fontSize charSpacing rest

/-- `TextToSVG.getVerticalHeight(text, options)`. -/
def getVerticalHeight (f : Font) (text : List Char) (o : TextToSVGOptions) : ℚ :=
  let fontSize := jsOrQ o.fontSize 72
  let charSpacing := fontSize * 0.1
  getVerticalHeightAux o fontSize charSpacing (f.stringToGlyphs text)

/-- `TextToSVG.getVerticalWidth(fontSize)`. -/
def getVerticalWidth (f : Font) (fontSize : ℚ) : ℚ :=
  (f.ascender - f.descender) * ((1 / f.unitsPerEm) * fontSize)

/-- `TextToSVG.getVerticalMetrics(text, options)`. -/
def getVerticalMetrics (f : Font) (text : List Char) (o : TextToSVGOptions) :
    Except String SLMetrics := do
  let fontSize := jsOrQ o.fontSize 72
  let anchor := parseAnchorOption (o.anchor.getD "")
  let height := getVerticalHeight f text o
  let width := getVerticalWidth f fontSize
  let fontScale := (1 / f.unitsPerEm) * fontSize
  let ascender := f.ascender * fontScale
  let descender := f.descender * fontScale
  let xShift ← anchorShiftX anchor.1 width
  let yShift ← anchorShiftY anchor.2 ascender height
  let x := (o.x.getD 0) - xShift
  let y := (o.y.getD 0) - yShift
  pure { x := x, y := y, baseline := y + ascender, width := width,
         height := height, ascender := ascender, descender := descender }

/-! ### Multi-line metrics -/

/-- `text.split('\n')`. -/
def splitLines : List Char → List (List Char)
  | [] => [[]]
  | c :: cs =>
    if c = '\n' then [] :: splitLines cs
    else
      match splitLines cs with
      | [] => [[c]]
      | l :: ls => (c :: l) :: ls

/-- `Math.max(...xs)` for a non-empty list. -/
def maxListQ : List ℚ → ℚ
  | [] => 0
  | x :: xs => xs.foldl max x

/-- `Math.min(...xs)` for a non-empty list. -/
def minListQ : List ℚ → ℚ
  | [] => 0
  | x :: xs => xs.foldl min x

/-- `lines.map(line => ...)` where the body may throw: the exception of the
first failing line propagates. -/
def mapME {α β : Type} (g : α → Except String β) : List α → Except String (List β)
  | [] => .ok []
  | a :: as => do
    let b ← g a
    let bs ← mapME g as
    pure (b :: bs)

lemma mapME_length {α β : Type} (g : α → Except String β) (l : List α)
    (l' : List β) (h : mapME g l = .ok l') : l'.length = l.length := by
  induction l generalizing l' with
  | nil => simp [mapME] at h; simp [← h]
  | cons a as ih =>
    simp only [mapME, bind, Except.bind] at h
    cases hga : g a with
    | error e => rw [hga] at h; exact absurd h (by simp)
    | ok b =>
      rw [hga] at h
      cases hgas : mapME g as with
      | error e => rw [hgas] at h; exact absurd h (by simp)
      | ok bs =>
        rw [hgas] at h
        simp only [pure, Except.pure, Except.ok.injEq] at h
        subst h
        simp [ih bs hgas]

/-- The per-line metrics pass of `getMultilineMetrics`: single-line metrics
per line with `lineHeight`/`textAlign` removed and, when `textAlign` is
`left`, the anchor forced to `left top`; the split lines contain no
newline, so the inner `getMetrics` call takes its single-line horizontal
branch, embedded as `getSingleLineMetrics`. -/
def multilineLineMetrics (f : Font) (o : TextToSVGOptions)
    (textAlign : String) : List (List Char) → Except String (List LineM) :=
  mapME (fun line => do
    let slOpts : TextToSVGOptions :=
      { o with lineHeight := none, textAlign := none,
               anchor := if textAlign = "left" then some "left top" else o.anchor }
    let m ← getSingleLineMetrics f line slOpts
    pure { text := line, x := m.x, y := m.y, baseline := m.baseline,
           width := m.width, height := m.height, ascender := m.ascender,
           descender := m.descender : LineM })

/-- The per-line positioning loop of `getMultilineMetrics`: horizontal
offset by `textAlign`, `y = block y + i × lineHeight`,
`baseline = y + ascender`. -/
def positionLines (textAlign : String) (x y totalWidth lineHeight : ℚ)
    (lineMetrics : List LineM) : List LineM :=
  lineMetrics.enum.map (fun p =>
    let i := p.1
    let m := p.2
    let newX :=
      if textAlign = "left" then x
      else if textAlign = "center" then x + (totalWidth - m.width) / 2
      else if textAlign = "right" then x + totalWidth - m.width
      else m.x
    let newY := y + (i : ℚ) * lineHeight
    { m with x := newX, y := newY, baseline := newY + m.ascender })

/-- `TextToSVG.getMultilineMetrics(text, options)` (horizontal). -/
def getMultilineMetrics (f : Font) (text : List Char) (o : TextToSVGOptions) :
    Except String MLMetrics := do
  let lines := splitLines text
  let fontSize := jsOrQ o.fontSize 72
  let lineHeight := (jsOrQ o.lineHeight 1.2) * fontSize
  let textAlign := jsOrStr o.textAlign "left"
  let anchor := parseAnchorOption (o.anchor.getD "")
  let lineMetrics ← multilineLineMetrics f o textAlign lines
  let totalWidth := maxListQ (lineMetrics.map LineM.width)
  let totalHeight := ((lines.length : ℚ) - 1) * lineHeight
      + (lineMetrics.headD default).height
  let xShift ← anchorShiftX anchor.1 totalWidth
  let yShift ← anchorShiftY anchor.2 (lineMetrics.headD default).ascender totalHeight
  let x := (o.x.getD 0) - xShift
  let y := (o.y.getD 0) - yShift
  pure { lines := positionLines textAlign x y totalWidth lineHeight lineMetrics,
         totalWidth := totalWidth, totalHeight := totalHeight,
         x := x, y := y, lineHeight := lineHeight,
         baseline := y + (if 0 < lineMetrics.length
                          then (lineMetrics.headD default).ascender else 0) }

/-- The per-column metrics pass of `getVerticalMultilineMetrics`: vertical
single-line metrics with position/anchor/envelope options stripped and
writing mode forced vertical. -/
def verticalColumnMetrics (f : Font) (o : TextToSVGOptions) :
    List (List Char) → Except String (List LineM) :=
  mapME (fun line => do
    let slOpts : TextToSVGOptions :=
      { o with lineHeight := none, textAlign := none, envelope := none,
               x := none, y := none, anchor := none,
               writingMode := some "vertical" }
    let m ← getVerticalMetrics f line slOpts
    pure { text := line, x := m.x, y := m.y, baseline := m.baseline,
           width := m.width, height := m.height, ascender := m.ascender,
           descender := m.descender : LineM })

/-- The per-column positioning loop of `getVerticalMultilineMetrics`:
columns laid out right to left, constant y. -/
def positionColumns (x y totalWidth lineHeight : ℚ)
    (lineMetrics : List LineM) : List LineM :=
  lineMetrics.enum.map (fun p =>
    let i := p.1
    let m := p.2
    let newX := x + totalWidth - ((i : ℚ) + 1) * lineHeight
        + (lineHeight - m.width) / 2
    { m with x := newX, y := y, baseline := y + m.ascender })

/-- `TextToSVG.getVerticalMultilineMetrics(text, options)`. -/
def getVerticalMultilineMetrics (f : Font) (text : List Char)
    (o : TextToSVGOptions) : Except String MLMetrics := do
  let lines := splitLines text
  let fontSize := jsOrQ o.fontSize 72
  let lineHeight := (jsOrQ o.lineHeight 1.2) * fontSize
  let anchor := parseAnchorOption (o.anchor.getD "")
  let lineMetrics ← verticalColumnMetrics f o lines
  let totalHeight := maxListQ (lineMetrics.map LineM.height)
  let totalWidth :=
    if 0 < lineMetrics.length then
      (lineMetrics.headD default).width + ((lines.length : ℚ) - 1) * lineHeight
    else 0
  let fontScale := (1 / f.unitsPerEm) * fontSize
  let ascender := f.ascender * fontScale
  let xShift ← anchorShiftX anchor.1 totalWidth
  let yShift ← anchorShiftY anchor.2 ascender totalHeight
  let x := (o.x.getD 0) - xShift
  let y := (o.y.getD 0) - yShift
  pure { lines := positionColumns x y totalWidth lineHeight lineMetrics,
         totalWidth := totalWidth, totalHeight := totalHeight,
         x := x, y := y, lineHeight := lineHeight,
         baseline := y + (lineMetrics.headD default).ascender }

/-- `TextToSVG.getMetrics(text, options)`: dispatch on multiline input and
writing mode, then package the metrics. -/
def getMetrics (f : Font) (text : List Char) (o : TextToSVGOptions) :
    Except String TMetrics := do
  let writingMode := jsOrStr o.writingMode "horizontal"
  if text.contains '\n' then
    let mm ←
      if writingMode = "vertical" then getVerticalMultilineMetrics f text o
      else getMultilineMetrics f text o
    pure { x := mm.x, y := mm.y, baseline := mm.baseline,
           width := mm.totalWidth, height := mm.totalHeight,
           ascender := (mm.lines.headD default).ascender,
           descender := (mm.lines.getLastD default).descender,
           lines := some mm.lines }
  else if writingMode = "vertical" then
    let m ← getVerticalMetrics f text o
    pure { x := m.x, y := m.y, baseline := m.baseline, width := m.width,
           height := m.height, ascender := m.ascender, descender := m.descender }
  else
    let m ← getSingleLineMetrics f text o
    pure { x := m.x, y := m.y, baseline := m.baseline, width := m.width,
           height := m.height, ascender := m.ascender, descender := m.descender }

/-! ### Fixture font (§8 of the specification) -/

/-- A glyph of the deterministic fixture font: advance width 600 font units,
outline bounding box [0,0]–[600,800] font units at 1000 units per em (in
path coordinates, per unit font size: x ∈ [0, 0.6] and y ∈ [−0.8, 0], the
y axis pointing down). -/
def fixtureGlyph (c : Char) : Glyph :=
  { unicode := c.toNat, advanceWidth := 600,
    bx1 := 0, by1 := -0.8, bx2 := 0.6, by2 := 0 }

/-- The fixture font: unitsPerEm 1000, ascender 800, descender −200,
kerning always 0. -/
def fixtureFont : Font :=
  { unitsPerEm := 1000, ascender := 800, descender := -200,
    charToGlyph := fixtureGlyph, getKerningValue := fun _ _ => 0 }

/-- Decidable equality on `Except`, so concrete runs can be checked by
`decide`. -/
instance exceptDecEq {ε α : Type} [DecidableEq ε] [DecidableEq α] :
    DecidableEq (Except ε α) := fun a b =>
  match a, b with
  | .error e, .error e' =>
    if h : e = e' then .isTrue (by rw [h])
    else .isFalse (fun hh => by cases hh; exact h rfl)
  | .error _, .ok _ => .isFalse (fun hh => by cases hh)
  | .ok _, .error _ => .isFalse (fun hh => by cases hh)
  | .ok v, .ok v' =>
    if h : v = v' then .isTrue (by rw [h])
    else .isFalse (fun hh => by cases hh; exact h rfl)

/-! ### Helper lemmas about the metrics calculator -/

/-- `ascender × fontScale` as computed in the metrics calculator. -/
def scaledAscender (f : Font) (o : TextToSVGOptions) : ℚ :=
  f.ascender * ((1 / f.unitsPerEm) * jsOrQ o.fontSize 72)

/-- `descender × fontScale` as computed in the metrics calculator. -/
def scaledDescender (f : Font) (o : TextToSVGOptions) : ℚ :=
  f.descender * ((1 / f.unitsPerEm) * jsOrQ o.fontSize 72)

/-- The single-line metrics record produced when both anchor switches
succeed with displacements `sx`, `sy`. -/
def slRecord (f : Font) (text : List Char) (o : TextToSVGOptions)
    (sx sy : ℚ) : SLMetrics :=
  { x := o.x.getD 0 - sx, y := o.y.getD 0 - sy,
    baseline := (o.y.getD 0 - sy) + scaledAscender f o,
    width := getWidth f text o, height := getHeight f (jsOrQ o.fontSize 72),
    ascender := scaledAscender f o, descender := scaledDescender f o }

lemma getSingleLineMetrics_eq_ok (f : Font) (text : List Char)
    (o : TextToSVGOptions) (sx sy : ℚ)
    (hx : anchorShiftX (parseAnchorOption (o.anchor.getD "")).1
        (getWidth f text o) = .ok sx)
    (hy : anchorShiftY (parseAnchorOption (o.anchor.getD "")).2
        (scaledAscender f o) (getHeight f (jsOrQ o.fontSize 72)) = .ok sy) :
    getSingleLineMetrics f text o = .ok (slRecord f text o sx sy) := by
  unfold scaledAscender at hy
  simp only [getSingleLineMetrics]
  rw [hx, hy]
  rfl

lemma getSingleLineMetrics_ok_elim (f : Font) (text : List Char)
    (o : TextToSVGOptions) (sl : SLMetrics)
    (h : getSingleLineMetrics f text o = .ok sl) :
    ∃ sx sy,
      anchorShiftX (parseAnchorOption (o.anchor.getD "")).1
        (getWidth f text o) = .ok sx
      ∧ anchorShiftY (parseAnchorOption (o.anchor.getD "")).2
          (scaledAscender f o) (getHeight f (jsOrQ o.fontSize 72)) = .ok sy
      ∧ sl = slRecord f text o sx sy := by
  simp only [getSingleLineMetrics] at h
  cases hx : anchorShiftX (parseAnchorOption (o.anchor.getD "")).1
      (getWidth f text o) with
  | error e =>
    rw [hx] at h
    exact absurd h (by simp [bind, Except.bind])
  | ok sx =>
    rw [hx] at h
    cases hy : anchorShiftY (parseAnchorOption (o.anchor.getD "")).2
        (f.ascender * ((1 / f.unitsPerEm) * jsOrQ o.fontSize 72))
        (getHeight f (jsOrQ o.fontSize 72)) with
    | error e =>
      rw [hy] at h
      exact absurd h (by simp [bind, Except.bind])
    | ok sy =>
      rw [hy] at h
      simp only [bind, Except.bind, pure, Except.pure, Except.ok.injEq] at h
      refine ⟨sx, sy, rfl, ?_, ?_⟩
      · unfold scaledAscender
        exact hy
      · unfold slRecord scaledAscender scaledDescender
        exact h.symm

lemma getMetrics_single_horizontal (f : Font) (text : List Char)
    (o : TextToSVGOptions) (hnl : text.contains '\n' = false)
    (hwm : jsOrStr o.writingMode "horizontal" = "horizontal") :
    getMetrics f text o
      = (getSingleLineMetrics f text o).map
          (fun m => ({ x := m.x, y := m.y, baseline := m.baseline,
                       width := m.width, height := m.height,
                       ascender := m.ascender, descender := m.descender }
                     : TMetrics)) := by
  have hnl' : ¬ ('\n' ∈ text) := by simpa using hnl
  cases hm : getSingleLineMetrics f text o <;>
    simp [getMetrics, hnl', hwm, hm, Except.map, bind, Except.bind, pure,
      Except.pure]

/-! ### Claim C1 -/

/-- C1: in horizontal single-line mode, the width returned by the metrics
calculator equals the sum over all glyphs of `advanceWidth × fontScale`,
plus kerning of each adjacent pair `× fontScale` when kerning is enabled
(between glyphs only), plus, for every glyph including the last, the
letter-spacing term `letterSpacing × fontSize` when letterSpacing is
non-zero, else `tracking/1000 × fontSize` when tracking is non-zero
(`specWidth`). -/
theorem C1_horizontal_single_line_width (f : Font) (text : List Char)
    (o : TextToSVGOptions) :
    getWidth f text o = specWidth f text o
    ∧ (∀ m : TMetrics, text.contains '\n' = false →
        jsOrStr o.writingMode "horizontal" = "horizontal" →
        getMetrics f text o = Except.ok m →
        m.width = specWidth f text o) := by
  have hw : getWidth f text o = specWidth f text o := by
    unfold getWidth specWidth
    exact getWidthAux_eq_spec f o _ _ _ _
  refine ⟨hw, ?_⟩
  intro m hnl hwm hok
  rw [getMetrics_single_horizontal f text o hnl hwm] at hok
  cases hm : getSingleLineMetrics f text o with
  | error e =>
    rw [hm] at hok
    exact absurd hok (by simp [Except.map])
  | ok sl =>
    rw [hm] at hok
    simp only [Except.map, Except.ok.injEq] at hok
    obtain ⟨sx, sy, -, -, hsl⟩ := getSingleLineMetrics_ok_elim f text o sl hm
    rw [← hok, hsl]
    exact hw

/-- Witness for C1 at the fixture font and a concrete one-glyph text. -/
theorem C1_horizontal_single_line_width_witness :
    getWidth fixtureFont ['A'] { fontSize := some 100 }
      = specWidth fixtureFont ['A'] { fontSize := some 100 }
    ∧ ({ x := 0, y := -80, baseline := 0, width := 60, height := 100,
         ascender := 80, descender := -20 } : TMetrics).width
      = specWidth fixtureFont ['A'] { fontSize := some 100 } := by
  refine ⟨(C1_horizontal_single_line_width fixtureFont ['A'] _).1, ?_⟩
  refine (C1_horizontal_single_line_width fixtureFont ['A']
      { fontSize := some 100 }).2
    { x := 0, y := -80, baseline := 0, width := 60, height := 100,
      ascender := 80, descender := -20 }
    (by decide) rfl ?_
  simp +decide [getMetrics, getSingleLineMetrics, getWidth, getWidthAux,
    getHeight, parseAnchorOption, scanFirstCI, matchAltCI, matchTokenCI,
    hAnchorTokens, vAnchorTokens, anchorShiftX, anchorShiftY, jsOrQ, jsOrStr,
    jsTruthyQ, spacingTerm, fixtureFont, fixtureGlyph, Font.stringToGlyphs,
    bind, Except.bind, pure, Except.pure]
  norm_num

/-! ### Claim C2 -/

/-- Horizontal anchor displacement as the specification words it:
0 for `left`, width/2 for `center`, width for `right`. -/
def specShiftX (h : String) (width : ℚ) : ℚ :=
  if h = "left" then 0 else if h = "center" then width / 2 else width

/-- Vertical anchor displacement as the specification words it: 0 for
`top`, `ascender × fontScale` for `baseline`, height/2 for `middle`,
height for `bottom`. -/
def specShiftY (v : String) (ascender height : ℚ) : ℚ :=
  if v = "top" then 0
  else if v = "baseline" then ascender
  else if v = "middle" then height / 2
  else height

lemma anchorShiftX_ok_of_mem (h : String) (w : ℚ)
    (hm : h ∈ (["left", "center", "right"] : List String)) :
    anchorShiftX h w = .ok (specShiftX h w) := by
  fin_cases hm <;> simp +decide [anchorShiftX, specShiftX]

lemma anchorShiftY_ok_of_mem (v : String) (asc hgt : ℚ)
    (hm : v ∈ (["baseline", "top", "middle", "bottom"] : List String)) :
    anchorShiftY v asc hgt = .ok (specShiftY v asc hgt) := by
  fin_cases hm <;> simp +decide [anchorShiftY, specShiftY]

/-- C2: for horizontal single-line input the metrics calculator shifts the
requested x by 0 / −width/2 / −width for horizontal anchor
left/center/right, shifts the requested y by 0 for top,
−ascender×fontScale for baseline, −height/2 for middle, −height for
bottom, and sets baseline = y + ascender×fontScale; and on the fixture
font with anchor "center middle", fontSize 100, x = 0, y = 0, a
one-character text yields exactly
{x: −30, y: −50, baseline: 30, width: 60, height: 100}. -/
theorem C2_anchor_positioning :
    (∀ (f : Font) (text : List Char) (o : TextToSVGOptions),
      text.contains '\n' = false →
      jsOrStr o.writingMode "horizontal" = "horizontal" →
      (parseAnchorOption (o.anchor.getD "")).1
        ∈ (["left", "center", "right"] : List String) →
      (parseAnchorOption (o.anchor.getD "")).2
        ∈ (["baseline", "top", "middle", "bottom"] : List String) →
      getMetrics f text o = Except.ok
        { x := o.x.getD 0
            - specShiftX (parseAnchorOption (o.anchor.getD "")).1
                (getWidth f text o),
          y := o.y.getD 0
            - specShiftY (parseAnchorOption (o.anchor.getD "")).2
                (scaledAscender f o) (getHeight f (jsOrQ o.fontSize 72)),
          baseline := (o.y.getD 0
            - specShiftY (parseAnchorOption (o.anchor.getD "")).2
                (scaledAscender f o) (getHeight f (jsOrQ o.fontSize 72)))
            + scaledAscender f o,
          width := getWidth f text o,
          height := getHeight f (jsOrQ o.fontSize 72),
          ascender := scaledAscender f o,
          descender := scaledDescender f o })
    ∧ getMetrics fixtureFont ['A']
        { fontSize := some 100, anchor := some "center middle",
          x := some 0, y := some 0 }
        = Except.ok { x := -30, y := -50, baseline := 30, width := 60,
                      height := 100, ascender := 80, descender := -20 } := by
  constructor
  · intro f text o hnl hwm hmx hmy
    have hx := anchorShiftX_ok_of_mem _ (getWidth f text o) hmx
    have hy := anchorShiftY_ok_of_mem _ (scaledAscender f o)
        (getHeight f (jsOrQ o.fontSize 72)) hmy
    rw [getMetrics_single_horizontal f text o hnl hwm,
      getSingleLineMetrics_eq_ok f text o _ _ hx hy]
    rfl
  · simp +decide [getMetrics, getSingleLineMetrics, getWidth, getWidthAux,
      getHeight, parseAnchorOption, scanFirstCI, matchAltCI, matchTokenCI,
      hAnchorTokens, vAnchorTokens, anchorShiftX, anchorShiftY, jsOrQ,
      jsOrStr, jsTruthyQ, spacingTerm, fixtureFont, fixtureGlyph,
      Font.stringToGlyphs, bind, Except.bind, pure, Except.pure]
    norm_num

/-- Witness for C2: the universal part applied to the fixture font with
anchor "left baseline" at fontSize 100. -/
theorem C2_anchor_positioning_witness :
    getMetrics fixtureFont ['A']
      { fontSize := some 100, anchor := some "left baseline",
        x := some 0, y := some 0 }
      = Except.ok
        { x := (0 : ℚ)
            - specShiftX (parseAnchorOption "left baseline").1
                (getWidth fixtureFont ['A']
                  { fontSize := some 100, anchor := some "left baseline",
                    x := some 0, y := some 0 }),
          y := (0 : ℚ)
            - specShiftY (parseAnchorOption "left baseline").2
                (scaledAscender fixtureFont
                  { fontSize := some 100, anchor := some "left baseline",
                    x := some 0, y := some 0 })
                (getHeight fixtureFont 100),
          baseline := ((0 : ℚ)
            - specShiftY (parseAnchorOption "left baseline").2
                (scaledAscender fixtureFont
                  { fontSize := some 100, anchor := some "left baseline",
                    x := some 0, y := some 0 })
                (getHeight fixtureFont 100))
            + scaledAscender fixtureFont
                { fontSize := some 100, anchor := some "left baseline",
                  x := some 0, y := some 0 },
          width := getWidth fixtureFont ['A']
              { fontSize := some 100, anchor := some "left baseline",
                x := some 0, y := some 0 },
          height := getHeight fixtureFont 100,
          ascender := scaledAscender fixtureFont
              { fontSize := some 100, anchor := some "left baseline",
                x := some 0, y := some 0 },
          descender := scaledDescender fixtureFont
              { fontSize := some 100, anchor := some "left baseline",
                x := some 0, y := some 0 } } := by
  have h := C2_anchor_positioning.1 fixtureFont ['A']
    { fontSize := some 100, anchor := some "left baseline",
      x := some 0, y := some 0 }
    (by decide)
    rfl
    (by simp +decide [parseAnchorOption, scanFirstCI, matchAltCI,
      matchTokenCI, hAnchorTokens, vAnchorTokens])
    (by simp +decide [parseAnchorOption, scanFirstCI, matchAltCI,
      matchTokenCI, hAnchorTokens, vAnchorTokens])
  simpa [jsOrQ] using h

/-! ### Claim C3 -/

lemma positionLines_map {α : Type} (proj : LineM → α)
    (h : ∀ (m : LineM) (a b c : ℚ),
      proj { m with x := a, y := b, baseline := c } = proj m)
    (t : String) (x y w lh : ℚ) (l : List LineM) :
    (positionLines t x y w lh l).map proj = l.map proj := by
  unfold positionLines
  rw [List.map_map]
  have heq : ∀ p : ℕ × LineM,
      (proj ∘ fun p : ℕ × LineM =>
        let i := p.1
        let m := p.2
        let newX :=
          if t = "left" then x
          else if t = "center" then x + (w - m.width) / 2
          else if t = "right" then x + w - m.width
          else m.x
        let newY := y + (i : ℚ) * lh
        { m with x := newX, y := newY, baseline := newY + m.ascender }) p
      = (proj ∘ Prod.snd) p := fun p => h p.2 _ _ _
  rw [funext heq, ← List.map_map, List.enum_map_snd]

lemma positionLines_length (t : String) (x y w lh : ℚ) (l : List LineM) :
    (positionLines t x y w lh l).length = l.length := by
  simp [positionLines]

lemma positionLines_getElem (t : String) (x y w lh : ℚ) (l : List LineM)
    (i : ℕ) (hi : i < (positionLines t x y w lh l).length) :
    ((positionLines t x y w lh l)[i]).y = y + (i : ℚ) * lh
    ∧ ((positionLines t x y w lh l)[i]).baseline
        = (y + (i : ℚ) * lh) + ((positionLines t x y w lh l)[i]).ascender := by
  have hi' : i < l.length := by
    simpa [positionLines_length] using hi
  unfold positionLines
  simp [List.getElem_map, List.getElem_enum]

lemma positionLines_headD_height (t : String) (x y w lh : ℚ)
    (l : List LineM) :
    ((positionLines t x y w lh l).headD default).height
      = (l.headD default).height := by
  cases l with
  | nil => rfl
  | cons m ms => simp [positionLines]

lemma getMultilineMetrics_ok_elim (f : Font) (text : List Char)
    (o : TextToSVGOptions) (mm : MLMetrics)
    (hok : getMultilineMetrics f text o = .ok mm) :
    ∃ (lineMetrics : List LineM) (sx sy : ℚ),
      multilineLineMetrics f o (jsOrStr o.textAlign "left")
        (splitLines text) = .ok lineMetrics
      ∧ mm = { lines := positionLines (jsOrStr o.textAlign "left")
                  (o.x.getD 0 - sx) (o.y.getD 0 - sy)
                  (maxListQ (lineMetrics.map LineM.width))
                  ((jsOrQ o.lineHeight 1.2) * jsOrQ o.fontSize 72) lineMetrics,
               totalWidth := maxListQ (lineMetrics.map LineM.width),
               totalHeight := (((splitLines text).length : ℚ) - 1)
                   * ((jsOrQ o.lineHeight 1.2) * jsOrQ o.fontSize 72)
                 + (lineMetrics.headD default).height,
               x := o.x.getD 0 - sx, y := o.y.getD 0 - sy,
               lineHeight := (jsOrQ o.lineHeight 1.2) * jsOrQ o.fontSize 72,
               baseline := (o.y.getD 0 - sy)
                 + (if 0 < lineMetrics.length
                    then (lineMetrics.headD default).ascender else 0) } := by
  simp only [getMultilineMetrics] at hok
  cases hlm : multilineLineMetrics f o (jsOrStr o.textAlign "left")
      (splitLines text) with
  | error e =>
    rw [hlm] at hok
    exact absurd hok (by simp [bind, Except.bind])
  | ok lineMetrics =>
    rw [hlm] at hok
    simp only [bind, Except.bind] at hok
    cases hx : anchorShiftX (parseAnchorOption (o.anchor.getD "")).1
        (maxListQ (lineMetrics.map LineM.width)) with
    | error e =>
      rw [hx] at hok
      exact absurd hok (by simp)
    | ok sx =>
      rw [hx] at hok
      simp only at hok
      cases hy : anchorShiftY (parseAnchorOption (o.anchor.getD "")).2
          (lineMetrics.headD default).ascender
          ((((splitLines text).length : ℚ) - 1)
              * (jsOrQ o.lineHeight 1.2 * jsOrQ o.fontSize 72)
            + (lineMetrics.headD default).height) with
      | error e =>
        rw [hy] at hok
        exact absurd hok (by simp)
      | ok sy =>
        rw [hy] at hok
        simp only [pure, Except.pure, Except.ok.injEq] at hok
        exact ⟨lineMetrics, sx, sy, rfl, hok.symm⟩

/-- C3: for multi-line horizontal text the metrics calculator returns
totalWidth = maximum of the line widths, totalHeight =
(lineCount − 1) × lineHeight + the first line's height, and sets each line
i's y = block y + i × lineHeight with baseline = that line's y + its
ascender; on the fixture font, "A\nB" at fontSize 100 with defaults gives
block y = −80 (the default baseline anchor subtracts the first line's
ascender 80), line0.y = −80, line1.y = 40, each baseline = its y + 80, and
totalHeight = 220. -/
theorem C3_multiline_metrics :
    (∀ (f : Font) (text : List Char) (o : TextToSVGOptions) (mm : MLMetrics),
      getMultilineMetrics f text o = Except.ok mm →
      mm.totalWidth = maxListQ (mm.lines.map LineM.width)
      ∧ mm.totalHeight = ((mm.lines.length : ℚ) - 1) * mm.lineHeight
          + (mm.lines.headD default).height
      ∧ ∀ (i : ℕ) (hi : i < mm.lines.length),
          (mm.lines[i]).y = mm.y + (i : ℚ) * mm.lineHeight
          ∧ (mm.lines[i]).baseline = (mm.lines[i]).y + (mm.lines[i]).ascender)
    ∧ getMetrics fixtureFont ("A\nB".toList) { fontSize := some 100 }
        = Except.ok
          { x := 0, y := -80, baseline := 0, width := 60, height := 220,
            ascender := 80, descender := -20,
            lines := some
              [{ text := ['A'], x := 0, y := -80, baseline := 0, width := 60,
                 height := 100, ascender := 80, descender := -20 },
               { text := ['B'], x := 0, y := 40, baseline := 120, width := 60,
                 height := 100, ascender := 80, descender := -20 }] } := by
  constructor
  · intro f text o mm hok
    obtain ⟨lineMetrics, sx, sy, hlm, hmm⟩ :=
      getMultilineMetrics_ok_elim f text o mm hok
    have hlen : lineMetrics.length = (splitLines text).length :=
      mapME_length _ _ _ hlm
    subst hmm
    refine ⟨?_, ?_, ?_⟩
    · rw [positionLines_map LineM.width (fun m a b c => rfl)]
    · rw [positionLines_length, hlen, positionLines_headD_height]
    · intro i hi
      have h := positionLines_getElem (jsOrStr o.textAlign "left")
        (o.x.getD 0 - sx) (o.y.getD 0 - sy)
        (maxListQ (lineMetrics.map LineM.width))
        ((jsOrQ o.lineHeight 1.2) * jsOrQ o.fontSize 72) lineMetrics i hi
      exact ⟨h.1, by rw [h.2, h.1]⟩
  · simp +decide [getMetrics, getMultilineMetrics, multilineLineMetrics,
      mapME, positionLines, getSingleLineMetrics, getWidth, getWidthAux,
      getHeight, parseAnchorOption, scanFirstCI, matchAltCI, matchTokenCI,
      hAnchorTokens, vAnchorTokens, anchorShiftX, anchorShiftY, jsOrQ,
      jsOrStr, jsTruthyQ, spacingTerm, fixtureFont, fixtureGlyph,
      Font.stringToGlyphs, splitLines, maxListQ, List.enum, List.enumFrom,
      bind, Except.bind, pure, Except.pure]
    norm_num

/-- Witness for C3: the universal part applied to the fixture two-line run. -/
theorem C3_multiline_metrics_witness :
    ∃ mm : MLMetrics,
      getMultilineMetrics fixtureFont ("A\nB".toList) { fontSize := some 100 }
        = Except.ok mm
      ∧ mm.totalWidth = maxListQ (mm.lines.map LineM.width)
      ∧ mm.totalHeight = ((mm.lines.length : ℚ) - 1) * mm.lineHeight
          + (mm.lines.headD default).height := by
  cases hmm : getMultilineMetrics fixtureFont ("A\nB".toList)
      { fontSize := some 100 } with
  | error e =>
    exact absurd hmm (by
      simp +decide [getMultilineMetrics, multilineLineMetrics, mapME,
        positionLines, getSingleLineMetrics, getWidth, getWidthAux,
        getHeight, parseAnchorOption, scanFirstCI, matchAltCI, matchTokenCI,
        hAnchorTokens, vAnchorTokens, anchorShiftX, anchorShiftY, jsOrQ,
        jsOrStr, jsTruthyQ, spacingTerm, fixtureFont, fixtureGlyph,
        Font.stringToGlyphs, splitLines, maxListQ, List.enum,
        List.enumFrom, bind, Except.bind, pure, Except.pure])
  | ok mm =>
    have h := (C3_multiline_metrics.1 fixtureFont ("A\nB".toList)
      { fontSize := some 100 } mm hmm)
    exact ⟨mm, rfl, h.1, h.2.1⟩

/-- Counterexample to C3 as stated: with the fixture font, text "A\nB",
fontSize 100 and the default anchor, the per-line y values computed by the
metrics calculator are −80 and 40 — not 0 and 120 as the claim asserts
(the default baseline anchor subtracts the first line's ascender from the
requested y). -/
theorem C3_multiline_metrics_counterexample :
    ((getMetrics fixtureFont ("A\nB".toList) { fontSize := some 100 }).toOption.bind
        (fun m => m.lines.map (fun ls => ls.map LineM.y)))
      = some [(-80 : ℚ), 40]
    ∧ ([(-80 : ℚ), 40] : List ℚ) ≠ [0, 120] := by
  constructor
  · simp +decide [getMetrics, getMultilineMetrics, multilineLineMetrics,
      mapME, positionLines, getSingleLineMetrics, getWidth, getWidthAux,
      getHeight, parseAnchorOption, scanFirstCI, matchAltCI, matchTokenCI,
      hAnchorTokens, vAnchorTokens, anchorShiftX, anchorShiftY, jsOrQ,
      jsOrStr, jsTruthyQ, spacingTerm, fixtureFont, fixtureGlyph,
      Font.stringToGlyphs, splitLines, maxListQ, List.enum, List.enumFrom,
      bind, Except.bind, pure, Except.pure, Except.toOption]
    norm_num
  · intro h
    have := List.head_eq_of_cons_eq h
    norm_num at this

/-! ### Claim C6 -/

lemma matchTokenCI_toLower (t s m : List Char) (h : matchTokenCI t s = some m) :
    m.map Char.toLower = t := by
  induction t generalizing s m with
  | nil =>
    simp only [matchTokenCI, Option.some.injEq] at h
    rw [← h]
    rfl
  | cons t0 ts ih =>
    cases s with
    | nil => simp [matchTokenCI] at h
    | cons c cs =>
      simp only [matchTokenCI] at h
      by_cases hc : c.toLower = t0
      · rw [if_pos hc] at h
        cases hm : matchTokenCI ts cs with
        | none =>
          rw [hm] at h
          exact Option.noConfusion h
        | some m2 =>
          rw [hm] at h
          simp only [Option.map_some', Option.some.injEq] at h
          rw [← h]
          simp [ih cs m2 hm, hc]
      · rw [if_neg hc] at h
        exact Option.noConfusion h

lemma scanFirstCI_toLower (toks : List (List Char)) (s m : List Char)
    (h : scanFirstCI toks s = some m) :
    ∃ t ∈ toks, m.map Char.toLower = t := by
  induction s with
  | nil => simp [scanFirstCI] at h
  | cons c cs ih =>
    simp only [scanFirstCI] at h
    cases ha : matchAltCI toks (c :: cs) with
    | some m2 =>
      rw [ha] at h
      simp only [Option.some.injEq] at h
      obtain ⟨t, ht, hm⟩ := List.exists_of_findSome?_eq_some ha
      rw [← h]
      exact ⟨t, ht, matchTokenCI_toLower t (c :: cs) m2 hm⟩
    | none =>
      rw [ha] at h
      exact ih h

/-- Lower-casing of a string, character by character. -/
def lowerStr (s : String) : String := String.mk (s.toList.map Char.toLower)

lemma parseAnchorOption_lower (s : String) :
    lowerStr (parseAnchorOption s).1 ∈ (["left", "center", "right"] : List String)
    ∧ lowerStr (parseAnchorOption s).2
        ∈ (["baseline", "top", "bottom", "middle"] : List String) := by
  constructor
  · show lowerStr (match scanFirstCI hAnchorTokens s.toList with
      | some m => String.mk m
      | none => "left") ∈ _
    cases hscan : scanFirstCI hAnchorTokens s.toList with
    | none => decide
    | some m =>
      obtain ⟨t, ht, hm⟩ := scanFirstCI_toLower _ _ _ hscan
      have hls : lowerStr (String.mk m) = String.mk t := by
        unfold lowerStr
        simp [hm]
      rw [hls]
      fin_cases ht <;> decide
  · show lowerStr (match scanFirstCI vAnchorTokens s.toList with
      | some m => String.mk m
      | none => "baseline") ∈ _
    cases hscan : scanFirstCI vAnchorTokens s.toList with
    | none => decide
    | some m =>
      obtain ⟨t, ht, hm⟩ := scanFirstCI_toLower _ _ _ hscan
      have hls : lowerStr (String.mk m) = String.mk t := by
        unfold lowerStr
        simp [hm]
      rw [hls]
      fin_cases ht <;> decide

lemma anchorShiftX_isOk (h : String) (w : ℚ) :
    (∃ q, anchorShiftX h w = .ok q)
      ↔ h ∈ (["left", "center", "right"] : List String) := by
  constructor
  · rintro ⟨q, hq⟩
    by_cases h1 : h = "left"
    · simp [h1]
    by_cases h2 : h = "center"
    · simp [h2]
    by_cases h3 : h = "right"
    · simp [h3]
    simp [anchorShiftX, h1, h2, h3] at hq
  · intro hm
    exact ⟨_, anchorShiftX_ok_of_mem h w hm⟩

lemma anchorShiftY_isOk (v : String) (asc hgt : ℚ) :
    (∃ q, anchorShiftY v asc hgt = .ok q)
      ↔ v ∈ (["baseline", "top", "middle", "bottom"] : List String) := by
  constructor
  · rintro ⟨q, hq⟩
    by_cases h1 : v = "baseline"
    · simp [h1]
    by_cases h2 : v = "top"
    · simp [h2]
    by_cases h3 : v = "middle"
    · simp [h3]
    by_cases h4 : v = "bottom"
    · simp [h4]
    simp [anchorShiftY, h1, h2, h3, h4] at hq
  · intro hm
    exact ⟨_, anchorShiftY_ok_of_mem v asc hgt hm⟩

/-- C6: the anchor resolver is total and picks case-insensitive matches
(carried with the original case, lower-casing to a recognized token), and
the metrics calculator fails with the unknown-anchor error exactly when a
carried axis value is not exactly one of the recognized lowercase
literals; in particular "Left" is carried unnormalized and makes the
metrics calculator fail synchronously. -/
theorem C6_anchor_resolver_error_behavior :
    (∀ s : String,
      lowerStr (parseAnchorOption s).1
        ∈ (["left", "center", "right"] : List String)
      ∧ lowerStr (parseAnchorOption s).2
          ∈ (["baseline", "top", "bottom", "middle"] : List String))
    ∧ (∀ (f : Font) (text : List Char) (o : TextToSVGOptions),
        text.contains '\n' = false →
        jsOrStr o.writingMode "horizontal" = "horizontal" →
        ((∃ m, getMetrics f text o = Except.ok m)
          ↔ (parseAnchorOption (o.anchor.getD "")).1
              ∈ (["left", "center", "right"] : List String)
            ∧ (parseAnchorOption (o.anchor.getD "")).2
                ∈ (["baseline", "top", "middle", "bottom"] : List String)))
    ∧ parseAnchorOption "Left" = ("Left", "baseline")
    ∧ getMetrics fixtureFont ['A'] { anchor := some "Left" }
        = Except.error (unknownAnchorMsg "Left") := by
  refine ⟨parseAnchorOption_lower, ?_, ?_, ?_⟩
  · intro f text o hnl hwm
    rw [getMetrics_single_horizontal f text o hnl hwm]
    constructor
    · rintro ⟨m, hm⟩
      cases hsl : getSingleLineMetrics f text o with
      | error e =>
        rw [hsl] at hm
        exact absurd hm (by simp [Except.map])
      | ok sl =>
        obtain ⟨sx, sy, hx, hy, -⟩ :=
          getSingleLineMetrics_ok_elim f text o sl hsl
        exact ⟨(anchorShiftX_isOk _ _).1 ⟨sx, hx⟩,
               (anchorShiftY_isOk _ _ _).1 ⟨sy, hy⟩⟩
    · rintro ⟨hmx, hmy⟩
      obtain ⟨sx, hx⟩ := (anchorShiftX_isOk _ (getWidth f text o)).2 hmx
      obtain ⟨sy, hy⟩ := (anchorShiftY_isOk _ (scaledAscender f o)
        (getHeight f (jsOrQ o.fontSize 72))).2 hmy
      rw [getSingleLineMetrics_eq_ok f text o sx sy hx hy]
      exact ⟨_, rfl⟩
  · simp +decide [parseAnchorOption, scanFirstCI, matchAltCI, matchTokenCI,
      hAnchorTokens, vAnchorTokens]
  · simp +decide [getMetrics, getSingleLineMetrics, getWidth, getWidthAux,
      getHeight, parseAnchorOption, scanFirstCI, matchAltCI, matchTokenCI,
      hAnchorTokens, vAnchorTokens, anchorShiftX, anchorShiftY, jsOrQ,
      jsOrStr, jsTruthyQ, spacingTerm, fixtureFont, fixtureGlyph,
      Font.stringToGlyphs, unknownAnchorMsg, bind, Except.bind, pure,
      Except.pure]

/-- Witness for C6: the error-iff applied at the fixture font with the
mixed-case anchor "Left". -/
theorem C6_anchor_resolver_error_behavior_witness :
    (∃ m, getMetrics fixtureFont ['A'] { anchor := some "Left" }
        = Except.ok m)
      ↔ (parseAnchorOption "Left").1
          ∈ (["left", "center", "right"] : List String)
        ∧ (parseAnchorOption "Left").2
            ∈ (["baseline", "top", "middle", "bottom"] : List String) :=
  C6_anchor_resolver_error_behavior.2.1 fixtureFont ['A']
    { anchor := some "Left" } (by decide) rfl

/-! ### Claim C7 -/

/-- Per-glyph contribution to the vertical height as the specification
words it: printable glyphs (char code > 32) contribute their outline
bounding-box height at the font size plus the letter-spacing / tracking
term; whitespace glyphs with non-zero advance contribute 60% of the font
size. -/
def specVerticalBase (o : TextToSVGOptions) (fontSize : ℚ) (g : Glyph) : ℚ :=
  if verticalCharCode g > 32 then
    (g.by2 * fontSize - g.by1 * fontSize) + spacingTerm o fontSize
  else if g.advanceWidth ≠ 0 then fontSize * 0.6
  else 0

/-- Vertical single-line height as the specification words it: the sum of
the per-glyph contributions, plus an inter-character spacing of 10% of the
font size for every printable glyph that is not in the last position. -/
def specVerticalHeight (f : Font) (text : List Char)
    (o : TextToSVGOptions) : ℚ :=
  let fontSize := jsOrQ o.fontSize 72
  let glyphs := f.stringToGlyphs text
  (glyphs.map (specVerticalBase o fontSize)).sum
  + ((glyphs.dropLast).map (fun g =>
      if verticalCharCode g > 32 then fontSize * 0.1 else 0)).sum

lemma getVerticalHeightAux_eq_spec (o : TextToSVGOptions) (fontSize : ℚ)
    (gs : List Glyph) :
    getVerticalHeightAux o fontSize (fontSize * 0.1) gs
      = (gs.map (specVerticalBase o fontSize)).sum
        + ((gs.dropLast).map (fun g =>
            if verticalCharCode g > 32 then fontSize * 0.1 else 0)).sum := by
  induction gs with
  | nil => simp [getVerticalHeightAux]
  | cons g rest ih =>
    cases rest with
    | nil =>
      simp only [getVerticalHeightAux]
      by_cases hp : verticalCharCode g > 32 <;>
        simp [specVerticalBase, hp]
    | cons g2 rest2 =>
      have step : getVerticalHeightAux o fontSize (fontSize * 0.1)
            (g :: g2 :: rest2)
          = (if verticalCharCode g > 32 then
              (g.by2 * fontSize - g.by1 * fontSize)
              + (if (g2 :: rest2) ≠ [] then fontSize * 0.1 else 0)
              + spacingTerm o fontSize
            else if g.advanceWidth ≠ 0 then fontSize * 0.6 else 0)
            + getVerticalHeightAux o fontSize (fontSize * 0.1)
                (g2 :: rest2) := rfl
      rw [step, ih]
      by_cases hp : verticalCharCode g > 32 <;>
        simp [specVerticalBase, hp] <;> ring

lemma getVerticalMetrics_ok_height (f : Font) (text : List Char)
    (o : TextToSVGOptions) (m : SLMetrics)
    (h : getVerticalMetrics f text o = .ok m) :
    m.height = getVerticalHeight f text o := by
  simp only [getVerticalMetrics] at h
  cases hx : anchorShiftX (parseAnchorOption (o.anchor.getD "")).1
      (getVerticalWidth f (jsOrQ o.fontSize 72)) with
  | error e =>
    rw [hx] at h
    exact absurd h (by simp [bind, Except.bind])
  | ok sx =>
    rw [hx] at h
    simp only [bind, Except.bind] at h
    cases hy : anchorShiftY (parseAnchorOption (o.anchor.getD "")).2
        (f.ascender * ((1 / f.unitsPerEm) * jsOrQ o.fontSize 72))
        (getVerticalHeight f text o) with
    | error e =>
      rw [hy] at h
      exact absurd h (by simp)
    | ok sy =>
      rw [hy] at h
      simp only [pure, Except.pure, Except.ok.injEq] at h
      rw [← h]

lemma getMetrics_single_vertical (f : Font) (text : List Char)
    (o : TextToSVGOptions) (hnl : text.contains '\n' = false)
    (hwm : jsOrStr o.writingMode "horizontal" = "vertical") :
    getMetrics f text o
      = (getVerticalMetrics f text o).map
          (fun m => ({ x := m.x, y := m.y, baseline := m.baseline,
                       width := m.width, height := m.height,
                       ascender := m.ascender, descender := m.descender }
                     : TMetrics)) := by
  have hnl2 : ¬ ('\n' ∈ text) := by simpa using hnl
  cases hm : getVerticalMetrics f text o <;>
    simp [getMetrics, hnl2, hwm, hm, Except.map, bind, Except.bind, pure,
      Except.pure]

/-- C7: in vertical single-line mode, the metrics height equals the sum,
over glyphs whose character code is > 32, of the glyph's outline
bounding-box height at the font size, plus 10% of fontSize between
characters but not after the last, plus the letterSpacing /
tracking-per-character term; glyphs with character code ≤ 32 and non-zero
advance width contribute 60% of fontSize instead. -/
theorem C7_vertical_single_line_height (f : Font) (text : List Char)
    (o : TextToSVGOptions) :
    getVerticalHeight f text o = specVerticalHeight f text o
    ∧ (∀ m : TMetrics, text.contains '\n' = false →
        jsOrStr o.writingMode "horizontal" = "vertical" →
        getMetrics f text o = Except.ok m →
        m.height = specVerticalHeight f text o) := by
  have hbase : getVerticalHeight f text o = specVerticalHeight f text o := by
    unfold getVerticalHeight specVerticalHeight
    exact getVerticalHeightAux_eq_spec o _ _
  refine ⟨hbase, ?_⟩
  intro m hnl hwm hok
  rw [getMetrics_single_vertical f text o hnl hwm] at hok
  cases hm : getVerticalMetrics f text o with
  | error e =>
    rw [hm] at hok
    exact absurd hok (by simp [Except.map])
  | ok sl =>
    rw [hm] at hok
    simp only [Except.map, Except.ok.injEq] at hok
    rw [← hok]
    show sl.height = _
    rw [getVerticalMetrics_ok_height f text o sl hm, hbase]

/-- Witness for C7 at the fixture font, one printable glyph, fontSize
100, vertical writing mode. -/
theorem C7_vertical_single_line_height_witness :
    getVerticalHeight fixtureFont ['A']
        { fontSize := some 100, writingMode := some "vertical" }
      = specVerticalHeight fixtureFont ['A']
          { fontSize := some 100, writingMode := some "vertical" }
    ∧ ({ x := 0, y := -80, baseline := 0, width := 100, height := 80,
         ascender := 80, descender := -20 } : TMetrics).height
      = specVerticalHeight fixtureFont ['A']
          { fontSize := some 100, writingMode := some "vertical" } := by
  refine ⟨(C7_vertical_single_line_height fixtureFont ['A'] _).1, ?_⟩
  refine (C7_vertical_single_line_height fixtureFont ['A']
      { fontSize := some 100, writingMode := some "vertical" }).2
    { x := 0, y := -80, baseline := 0, width := 100, height := 80,
      ascender := 80, descender := -20 }
    (by decide) rfl ?_
  simp +decide [getMetrics, getVerticalMetrics, getVerticalHeight,
    getVerticalHeightAux, getVerticalWidth, verticalCharCode,
    parseAnchorOption, scanFirstCI, matchAltCI, matchTokenCI,
    hAnchorTokens, vAnchorTokens, anchorShiftX, anchorShiftY, jsOrQ,
    jsOrStr, jsTruthyQ, spacingTerm, fixtureFont, fixtureGlyph,
    Font.stringToGlyphs, bind, Except.bind, pure, Except.pure]
  norm_num

/-! ### Claim C4: envelope transform (arc), over ℝ -/

/-- `v || d` on an optional real (JavaScript truthiness). -/
noncomputable def jsOrR (v : Option ℝ) (d : ℝ) : ℝ :=
  match v with
  | none => d
  | some q => if q = 0 then d else q

/-- `ArcTransformOptions` with real-valued fields. -/
structure ArcOptionsR where
  angle : ℝ
  textWidth : Option ℝ := none
  centerX : Option ℝ := none
  centerY : Option ℝ := none

/-- `MathUtils.degToRad`. -/
noncomputable def degToRad (deg : ℝ) : ℝ := deg * Real.pi / 180

/-- `MathUtils.radToDeg`. -/
noncomputable def radToDeg (rad : ℝ) : ℝ := rad * 180 / Real.pi

/-- `this.angleRad = MathUtils.degToRad(Math.abs(options.angle))` of the
`ArcTransform` constructor. -/
noncomputable def angleRadOf (o : ArcOptionsR) : ℝ := degToRad |o.angle|

/-- The radius computed by the `ArcTransform` constructor: 0 for a zero
angle, the arc-length approximation `textWidth / angleRad` for
`angleRad < 0.1`, else the chord formula
`textWidth / (2 sin(angleRad / 2))`; `options.textWidth || 100`. -/
noncomputable def arcRadius (o : ArcOptionsR) : ℝ :=
  if angleRadOf o = 0 then 0
  else if angleRadOf o < 0.1 then jsOrR o.textWidth 100 / angleRadOf o
  else jsOrR o.textWidth 100 / (2 * Real.sin (angleRadOf o / 2))

/-- `ArcTransform.transformPoint(x, y)`. The destructuring defaults
`textWidth = 100, centerX = 0, centerY = 0` apply to absent fields only. -/
noncomputable def transformPoint (o : ArcOptionsR) (x y : ℝ) : ℝ × ℝ × ℝ :=
  let textWidth := o.textWidth.getD 100
  let centerX := o.centerX.getD 0
  let centerY := o.centerY.getD 0
  if angleRadOf o = 0 then (centerX + x, centerY + y, 0)
  else
    let normalizedX := x / textWidth - 0.5
    let pointAngle := normalizedX * angleRadOf o
    let isUpward := 0 < o.angle
    let transformedX := centerX + arcRadius o * Real.sin pointAngle
    let transformedY :=
      if isUpward then centerY - arcRadius o * (1 - Real.cos pointAngle) + y
      else centerY + arcRadius o * (1 - Real.cos pointAngle) + y
    let rotation := radToDeg pointAngle
    (transformedX, transformedY, if isUpward then rotation else -rotation)

/-- The arc radius as the specification words it, for text width `w`:
`w/|θ_rad|` when `|θ_rad| < 0.1`, else `w / (2 sin(|θ_rad|/2))`. -/
noncomputable def specArcRadius (o : ArcOptionsR) (w : ℝ) : ℝ :=
  if |degToRad o.angle| < 0.1 then w / |degToRad o.angle|
  else w / (2 * Real.sin (|degToRad o.angle| / 2))

/-- The arc point mapping as the specification words it:
normalizedX = x/w − 0.5, pointAngle = normalizedX·|θ_rad|,
x ↦ centerX + radius·sin(pointAngle),
y ↦ centerY ∓ radius·(1 − cos(pointAngle)) + y (upward subtracts,
downward adds), rotation = pointAngle in degrees, sign-flipped for
downward arcs. -/
noncomputable def specArcPoint (o : ArcOptionsR) (w x y : ℝ) : ℝ × ℝ × ℝ :=
  let pointAngle := (x / w - 0.5) * |degToRad o.angle|
  let cx := o.centerX.getD 0
  let cy := o.centerY.getD 0
  let tx := cx + specArcRadius o w * Real.sin pointAngle
  let ty :=
    if 0 < o.angle then cy - specArcRadius o w * (1 - Real.cos pointAngle) + y
    else cy + specArcRadius o w * (1 - Real.cos pointAngle) + y
  (tx, ty, if 0 < o.angle then radToDeg pointAngle else -radToDeg pointAngle)

lemma angleRadOf_eq_abs (o : ArcOptionsR) :
    angleRadOf o = |degToRad o.angle| := by
  unfold angleRadOf degToRad
  rw [abs_div, abs_mul, abs_of_nonneg Real.pi_nonneg]
  norm_num

lemma angleRadOf_eq_zero_iff (o : ArcOptionsR) :
    angleRadOf o = 0 ↔ o.angle = 0 := by
  unfold angleRadOf degToRad
  rw [div_eq_zero_iff, mul_eq_zero]
  simp [Real.pi_ne_zero, abs_eq_zero]

/-- C4: for every arc envelope with angle θ ≠ 0 and a non-zero text width
w, the transform's radius and point mapping equal the specification
formulas (radius `w/|θ_rad|` for `|θ_rad| < 0.1`, else the chord formula;
normalizedX, pointAngle, transformedX/Y with the sign chosen by arc
direction); for θ = 0 every point maps to
(centerX + x, centerY + y) with rotation 0. -/
theorem C4_arc_envelope_transform :
    (∀ (o : ArcOptionsR) (x y w : ℝ), o.angle ≠ 0 → o.textWidth = some w →
      w ≠ 0 →
      arcRadius o = specArcRadius o w
      ∧ transformPoint o x y = specArcPoint o w x y)
    ∧ (∀ (o : ArcOptionsR) (x y : ℝ), o.angle = 0 →
      transformPoint o x y
        = (o.centerX.getD 0 + x, o.centerY.getD 0 + y, 0)) := by
  constructor
  · intro o x y w hang htw hw
    have hne : angleRadOf o ≠ 0 := fun h =>
      hang ((angleRadOf_eq_zero_iff o).1 h)
    have hjs : jsOrR o.textWidth 100 = w := by
      rw [htw]
      simp [jsOrR, hw]
    have hgd : o.textWidth.getD 100 = w := by rw [htw]; rfl
    have hrad : arcRadius o = specArcRadius o w := by
      unfold arcRadius specArcRadius
      rw [if_neg hne, hjs, angleRadOf_eq_abs]
    refine ⟨hrad, ?_⟩
    unfold transformPoint specArcPoint
    rw [if_neg hne, hrad, hgd, angleRadOf_eq_abs]
  · intro o x y hang
    have hz : angleRadOf o = 0 := (angleRadOf_eq_zero_iff o).2 hang
    unfold transformPoint
    rw [if_pos hz]

/-- Witness for C4: a 180-degree arc of chord width 2 (radius equals the
spec chord formula) and the zero-angle identity at center (5, 7). -/
theorem C4_arc_envelope_transform_witness :
    (arcRadius { angle := 180, textWidth := some 2, centerX := some 0,
                 centerY := some 0 }
       = specArcRadius { angle := 180, textWidth := some 2,
                         centerX := some 0, centerY := some 0 } 2
     ∧ transformPoint { angle := 180, textWidth := some 2,
                        centerX := some 0, centerY := some 0 } 1 2
       = specArcPoint { angle := 180, textWidth := some 2,
                        centerX := some 0, centerY := some 0 } 2 1 2)
    ∧ transformPoint { angle := 0, textWidth := none, centerX := some 5,
                       centerY := some 7 } 1 2 = (6, 9, 0) := by
  constructor
  · exact C4_arc_envelope_transform.1
      { angle := 180, textWidth := some 2, centerX := some 0,
        centerY := some 0 } 1 2 2 (by norm_num) rfl (by norm_num)
  · have h := C4_arc_envelope_transform.2
      { angle := 0, textWidth := none, centerX := some 5,
        centerY := some 7 } 1 2 rfl
    rw [h]
    norm_num

/-! ### Claim C5: font resource cache -/

/-- One cache entry (`CachedFont` with its map key): byte size of the
source font file and last-accessed timestamp. The parsed font asset and
resolved path play no role in the byte accounting. -/
structure CEntry where
  key : String
  size : Int
  lastAccessed : Nat
deriving DecidableEq

/-- The cache state: entries in `Map` insertion order and the running
byte total (`totalSize`). -/
structure CacheState where
  entries : List CEntry
  totalSize : Int
deriving DecidableEq

/-- `maxSize = 256 * 1024 * 1024` (256 MiB). -/
def maxSize : Int := 256 * 1024 * 1024

/-- The byte sizes of a list of entries, summed. -/
def sizeSum (l : List CEntry) : Int := (l.map CEntry.size).sum

/-- The eviction loop of `FontCache.evictLRU`, over the entries sorted by
ascending `lastAccessed`: before each entry stop as soon as
`totalSize − freedSpace + requiredSpace ≤ maxSize`; otherwise delete the
entry and add its size to `freedSpace`. Returns the evicted keys and the
freed bytes. -/
def evictLoop (total required freed : Int) :
    List CEntry → List String × Int
  | [] => ([], freed)
  | e :: rest =>
    if total - freed + required ≤ maxSize then ([], freed)
    else ((e.key :: (evictLoop total required (freed + e.size) rest).1),
          (evictLoop total required (freed + e.size) rest).2)

/-- The entries sorted by ascending `lastAccessed` (a stable sort, like
`Array.prototype.sort` with the comparator
`a.lastAccessed - b.lastAccessed`). -/
def lruSorted (st : CacheState) : List CEntry :=
  List.insertionSort
    (fun a b : CEntry => a.lastAccessed ≤ b.lastAccessed) st.entries

/-- `FontCache.evictLRU(requiredSpace)`: run the eviction loop
oldest-first over the sorted entries, delete the evicted keys from the
map and subtract the freed bytes from the running total. -/
def evictLRU (st : CacheState) (required : Int) : CacheState :=
  let p := evictLoop st.totalSize required 0 (lruSorted st)
  { entries := st.entries.filter (fun e => e.key ∉ p.1),
    totalSize := st.totalSize - p.2 }

/-- The cache mutation of `FontCache.load` after path resolution and stat:
evict when the new file would overflow the ceiling, then insert the new
entry (`load` is reached only on a cache miss, so `Map.set` appends) and
add its size to the running total. -/
def cacheLoad (st : CacheState) (key : String) (fileSize : Int)
    (now : Nat) : CacheState :=
  let st1 := if st.totalSize + fileSize > maxSize
             then evictLRU st fileSize else st
  { entries := st1.entries
        ++ [{ key := key, size := fileSize, lastAccessed := now }],
    totalSize := st1.totalSize + fileSize }

/-- `FontCache.get(fontFile)` (with the load succeeding and reading
`fileSize` bytes at time `now`): a hit refreshes `lastAccessed` only; a
miss loads. -/
def cacheGet (st : CacheState) (key : String) (fileSize : Int)
    (now : Nat) : CacheState :=
  if st.entries.any (fun e => e.key = key) then
    { st with entries := st.entries.map (fun e =>
        if e.key = key then { e with lastAccessed := now } else e) }
  else cacheLoad st key fileSize now

/-- `FontCache.clear()`. -/
def cacheClear (_st : CacheState) : CacheState :=
  { entries := [], totalSize := 0 }

/-- An observable cache operation: a `get` whose load (if any) succeeds,
or a `clear`. -/
inductive CacheOp where
  | get (key : String) (fileSize : Int) (now : Nat)
  | clear

/-- Apply one operation. -/
def applyOp (st : CacheState) : CacheOp → CacheState
  | .get k s n => cacheGet st k s n
  | .clear => cacheClear st

/-- The empty cache at process start. -/
def initCache : CacheState := { entries := [], totalSize := 0 }

/-- The observation-point invariant: the running byte total equals the
sum of the entries' sizes, and the map keys are distinct. -/
def CacheInv (st : CacheState) : Prop :=
  st.totalSize = sizeSum st.entries
  ∧ (st.entries.map CEntry.key).Nodup

lemma evictLoop_spec (total required freed : Int) (l : List CEntry) :
    ∃ pre post, l = pre ++ post
      ∧ (evictLoop total required freed l).1 = pre.map CEntry.key
      ∧ (evictLoop total required freed l).2 = freed + sizeSum pre
      ∧ (post = [] ∨
          total - (evictLoop total required freed l).2 + required ≤ maxSize) := by
  induction l generalizing freed with
  | nil =>
    exact ⟨[], [], rfl, rfl, by simp [evictLoop, sizeSum], Or.inl rfl⟩
  | cons e rest ih =>
    by_cases hc : total - freed + required ≤ maxSize
    · refine ⟨[], e :: rest, rfl, ?_, ?_, Or.inr ?_⟩
      · simp [evictLoop, hc]
      · simp [evictLoop, hc, sizeSum]
      · simp only [evictLoop, if_pos hc]
        exact hc
    · obtain ⟨pre, post, heq, hks, hfr, hstop⟩ := ih (freed + e.size)
      refine ⟨e :: pre, post, by rw [List.cons_append, ← heq], ?_, ?_, ?_⟩
      · simp [evictLoop, hc, hks]
      · simp only [evictLoop, if_neg hc, hfr, sizeSum, List.map_cons,
          List.sum_cons]
        ring
      · rcases hstop with h | h
        · exact Or.inl h
        · refine Or.inr ?_
          simpa [evictLoop, hc] using h

lemma evictLRU_spec (st : CacheState) (required : Int) (h : CacheInv st) :
    CacheInv (evictLRU st required)
    ∧ ((evictLRU st required).totalSize = 0
       ∨ (evictLRU st required).totalSize + required ≤ maxSize) := by
  obtain ⟨htot, hnd⟩ := h
  have hperm : List.Perm (lruSorted st) st.entries :=
    List.perm_insertionSort _ st.entries
  obtain ⟨pre, post, hsplit, hks, hfr, hstop⟩ :=
    evictLoop_spec st.totalSize required 0 (lruSorted st)
  have hndsorted : ((lruSorted st).map CEntry.key).Nodup :=
    ((hperm.map CEntry.key).nodup_iff).2 hnd
  have hpre : pre.filter (fun e =>
      decide (e.key ∉ List.map CEntry.key pre)) = [] := by
    rw [List.filter_eq_nil_iff]
    intro e he
    simp only [decide_eq_true_eq, Decidable.not_not]
    exact List.mem_map_of_mem CEntry.key he
  have hpost : post.filter (fun e =>
      decide (e.key ∉ List.map CEntry.key pre)) = post := by
    rw [List.filter_eq_self]
    intro e he
    simp only [decide_eq_true_eq]
    rw [hsplit, List.map_append, List.nodup_append] at hndsorted
    exact fun hmem => hndsorted.2.2 hmem (List.mem_map_of_mem CEntry.key he)
  have hfilter : (lruSorted st).filter (fun e =>
      decide (e.key ∉ List.map CEntry.key pre)) = post := by
    rw [hsplit, List.filter_append, hpre, hpost, List.nil_append]
  have hsum : sizeSum (st.entries.filter (fun e =>
      decide (e.key ∉ List.map CEntry.key pre))) = sizeSum post := by
    have hp : List.Perm (st.entries.filter (fun e =>
        decide (e.key ∉ List.map CEntry.key pre))) post := by
      rw [← hfilter]
      exact (hperm.filter _).symm
    exact (hp.map CEntry.size).sum_eq
  have hsortsum : st.totalSize = sizeSum pre + sizeSum post := by
    have h1 : sizeSum (lruSorted st) = sizeSum st.entries :=
      (hperm.map CEntry.size).sum_eq
    rw [htot, ← h1, hsplit]
    simp [sizeSum, List.map_append]
  have hentries : (evictLRU st required).entries
      = st.entries.filter (fun e =>
          decide (e.key ∉ List.map CEntry.key pre)) := by
    show st.entries.filter _ = _
    simp only [hks]
  have htot2 : (evictLRU st required).totalSize = sizeSum post := by
    show st.totalSize - (evictLoop st.totalSize required 0 (lruSorted st)).2 = _
    rw [hfr, hsortsum]
    ring
  refine ⟨⟨?_, ?_⟩, ?_⟩
  · rw [htot2, hentries]
    exact hsum.symm
  · rw [hentries]
    exact ((List.filter_sublist st.entries).map CEntry.key).nodup hnd
  · rcases hstop with hpost0 | hle
    · subst hpost0
      rw [htot2]
      exact Or.inl (by simp [sizeSum])
    · refine Or.inr ?_
      calc (evictLRU st required).totalSize + required
          = st.totalSize - (evictLoop st.totalSize required 0 (lruSorted st)).2
            + required := rfl
        _ ≤ maxSize := hle

lemma cacheLoad_inv (st : CacheState) (k : String) (s : Int) (n : Nat)
    (h : CacheInv st) (hmiss : k ∉ st.entries.map CEntry.key) :
    CacheInv (cacheLoad st k s n) := by
  have hst1 : CacheInv (if st.totalSize + s > maxSize
      then evictLRU st s else st) := by
    split
    · exact (evictLRU_spec st s h).1
    · exact h
  have hmiss1 : k ∉ (if st.totalSize + s > maxSize
      then evictLRU st s else st).entries.map CEntry.key := by
    split
    · intro hmem
      exact hmiss (((List.filter_sublist st.entries).map CEntry.key).mem hmem)
    · exact hmiss
  obtain ⟨htot1, hnd1⟩ := hst1
  constructor
  · show _ + s = sizeSum (_ ++ [_])
    rw [htot1]
    simp [sizeSum, List.map_append]
  · show ((_ ++ [_]).map CEntry.key).Nodup
    rw [List.map_append, List.nodup_append]
    refine ⟨hnd1, by simp, ?_⟩
    intro a ha hb
    simp only [List.map_cons, List.map_nil, List.mem_singleton] at hb
    subst hb
    exact hmiss1 ha

lemma cacheLoad_bound (st : CacheState) (k : String) (s : Int) (n : Nat)
    (h : CacheInv st) :
    (cacheLoad st k s n).totalSize ≤ maxSize ∨ maxSize < s := by
  by_cases hover : st.totalSize + s > maxSize
  · have hev := (evictLRU_spec st s h).2
    have htot : (cacheLoad st k s n).totalSize
        = (evictLRU st s).totalSize + s := by
      simp [cacheLoad, if_pos hover]
    rcases hev with h0 | hle
    · by_cases hs : s ≤ maxSize
      · exact Or.inl (by rw [htot, h0]; simpa using hs)
      · exact Or.inr (by omega)
    · exact Or.inl (by rw [htot]; exact hle)
  · refine Or.inl ?_
    have htot : (cacheLoad st k s n).totalSize = st.totalSize + s := by
      simp [cacheLoad, if_neg hover]
    rw [htot]
    omega

lemma cacheGet_inv (st : CacheState) (k : String) (s : Int) (n : Nat)
    (h : CacheInv st) : CacheInv (cacheGet st k s n) := by
  unfold cacheGet
  split
  · obtain ⟨htot, hnd⟩ := h
    constructor
    · show st.totalSize = sizeSum (st.entries.map _)
      rw [htot]
      unfold sizeSum
      rw [List.map_map]
      congr 1
      refine List.map_congr_left ?_
      intro e _
      by_cases hk : e.key = k <;> simp [hk]
    · show ((st.entries.map _).map CEntry.key).Nodup
      rw [List.map_map]
      have : (CEntry.key ∘ fun e =>
          if e.key = k then { e with lastAccessed := n } else e)
          = CEntry.key := by
        funext e
        by_cases hk : e.key = k <;> simp [hk]
      rw [this]
      exact hnd
  · rename_i hmiss
    refine cacheLoad_inv st k s n h ?_
    intro hmem
    obtain ⟨e, he, hek⟩ := List.mem_map.1 hmem
    exact hmiss (List.any_eq_true.2 ⟨e, he, by simp [hek]⟩)

lemma foldl_applyOp_inv (ops : List CacheOp) (st : CacheState)
    (h : CacheInv st) : CacheInv (ops.foldl applyOp st) := by
  induction ops generalizing st with
  | nil => exact h
  | cons op rest ih =>
    refine ih (applyOp st op) ?_
    cases op with
    | get k s n => exact cacheGet_inv st k s n h
    | clear => exact ⟨by simp [applyOp, cacheClear, sizeSum], by simp [applyOp, cacheClear]⟩

/-- C5: at every observation point outside an in-flight load the cache's
running byte total equals the sum of the cached entries' sizes (and keys
are distinct); after any successful load the total is ≤ maxSize (256 MiB)
unless the newly loaded font alone exceeds maxSize, and the new font is
kept either way; loading 200 MiB then 100 MiB into an empty cache evicts
the older 200 MiB entry, leaving totalBytes = 100 MiB and count = 1. -/
theorem C5_cache_byte_accounting :
    (∀ ops : List CacheOp, CacheInv (ops.foldl applyOp initCache))
    ∧ (∀ (st : CacheState) (k : String) (s : Int) (n : Nat), CacheInv st →
        ((cacheLoad st k s n).totalSize ≤ maxSize ∨ maxSize < s)
        ∧ ({ key := k, size := s, lastAccessed := n } : CEntry)
            ∈ (cacheLoad st k s n).entries)
    ∧ (cacheGet (cacheGet initCache "A" (200 * 1024 * 1024) 1)
          "B" (100 * 1024 * 1024) 2).totalSize = 100 * 1024 * 1024
    ∧ (cacheGet (cacheGet initCache "A" (200 * 1024 * 1024) 1)
          "B" (100 * 1024 * 1024) 2).entries.map CEntry.key = ["B"] := by
  refine ⟨?_, ?_, ?_, ?_⟩
  · intro ops
    exact foldl_applyOp_inv ops initCache
      ⟨by simp [initCache, sizeSum], by simp [initCache]⟩
  · intro st k s n h
    refine ⟨cacheLoad_bound st k s n h, ?_⟩
    show _ ∈ _ ++ [_]
    simp
  · decide
  · decide

/-- Witness for C5: the load bound applied to the one-entry cache holding
the 200 MiB font when the 100 MiB font arrives. -/
theorem C5_cache_byte_accounting_witness :
    ((cacheLoad
        { entries := [{ key := "A", size := 200 * 1024 * 1024,
                        lastAccessed := 1 }],
          totalSize := 200 * 1024 * 1024 }
        "B" (100 * 1024 * 1024) 2).totalSize ≤ maxSize
      ∨ maxSize < 100 * 1024 * 1024)
    ∧ ({ key := "B", size := 100 * 1024 * 1024, lastAccessed := 2 } : CEntry)
        ∈ (cacheLoad
            { entries := [{ key := "A", size := 200 * 1024 * 1024,
                            lastAccessed := 1 }],
              totalSize := 200 * 1024 * 1024 }
            "B" (100 * 1024 * 1024) 2).entries :=
  C5_cache_byte_accounting.2.1
    { entries := [{ key := "A", size := 200 * 1024 * 1024,
                    lastAccessed := 1 }],
      totalSize := 200 * 1024 * 1024 }
    "B" (100 * 1024 * 1024) 2 ⟨by decide, by decide⟩

/-! ### Claim C8: font path resolution -/

/-- Split a character list on separator characters (as
`String.prototype.split` with a separator class does: `n` separators give
`n+1` segments). -/
def splitChars (isSep : Char → Bool) : List Char → List (List Char)
  | [] => [[]]
  | c :: cs =>
    if isSep c then [] :: splitChars isSep cs
    else
      match splitChars isSep cs with
      | [] => [[c]]
      | l :: ls => (c :: l) :: ls

/-- Join segments with the platform separator `/`
(`Array.prototype.join('/')`). -/
def joinSegs : List (List Char) → List Char
  | [] => []
  | [s] => s
  | s :: rest => s ++ '/' :: joinSegs rest

/-- Leading parent-directory stripping:
`.replace(/^(\.\.(\/|\\|$))+/, '')`. -/
def stripLeadingParents : List Char → List Char
  | '.' :: '.' :: '/' :: rest => stripLeadingParents rest
  | '.' :: '.' :: '\\' :: rest => stripLeadingParents rest
  | ['.', '.'] => []
  | l => l

/-- One segment step of Node's posix `path.normalize`: empty and `.`
segments are dropped; `..` pops a previous real segment when one exists,
is dropped at the root of an absolute path, and is kept otherwise. -/
def normStep (isAbs : Bool) (acc : List (List Char)) (seg : List Char) :
    List (List Char) :=
  if seg = [] ∨ seg = ['.'] then acc
  else if seg = ['.', '.'] then
    match acc.getLast? with
    | some last => if last = ['.', '.'] then acc ++ [seg] else acc.dropLast
    | none => if isAbs then acc else [seg]
  else acc ++ [seg]

/-- Node's posix `path.normalize` (up to the trailing-slash convention,
which the subsequent segment filter makes irrelevant). -/
def normalizePath (p : List Char) : List Char :=
  let isAbs := match p with | '/' :: _ => true | _ => false
  let resolved := (splitChars (fun c => c = '/') p).foldl (normStep isAbs) []
  let body := joinSegs resolved
  if isAbs then '/' :: body
  else if body = [] then ['.'] else body

/-- `FontCache.sanitizePath(fontFile)`: normalize, strip leading
parent-directory groups, split on both separators, drop `..`/`.`/empty
segments, re-join with the platform separator. -/
def sanitizePath (fontFile : List Char) : List Char :=
  let normalized := stripLeadingParents (normalizePath fontFile)
  let parts := splitChars (fun c => c = '/' ∨ c = '\\') normalized
  joinSegs (parts.filter
    (fun part => part ≠ ['.', '.'] ∧ part ≠ ['.'] ∧ part ≠ []))

/-- `path.join` of a directory and a relative tail (the tails produced by
`sanitizePath` are already normalized). -/
def joinPath (a b : List Char) : List Char :=
  if b = [] then a else a ++ '/' :: b

/-- `path.basename`: the last separator-delimited segment. -/
def basename (p : List Char) : List Char :=
  (splitChars (fun c => c = '/') p).getLastD []

/-- The candidate paths of `FontCache.load`, in probe order: sanitized
path under the fonts root, sanitized path under the uploads root,
basename under the fonts root, basename under the uploads root. -/
def searchPaths (cwd fontFile : List Char) : List (List Char) :=
  let sanitizedFontFile := sanitizePath fontFile
  [ joinPath (joinPath cwd "fonts".toList) sanitizedFontFile,
    joinPath (joinPath cwd "uploads".toList) sanitizedFontFile,
    joinPath (joinPath cwd "fonts".toList) (basename sanitizedFontFile),
    joinPath (joinPath cwd "uploads".toList) (basename sanitizedFontFile) ]

/-- The path-resolution phase of `FontCache.load`: with a font key, the
first existing candidate wins, else the load throws `Font file not
found`; with no key, the fixed bundled default font path is used. The
filesystem is abstracted as an existence predicate (`fs.access`). -/
def resolveFontPath (fsExists : List Char → Bool) (cwd : List Char)
    (fontFile : Option (List Char)) : Except (List Char) (List Char) :=
  match fontFile with
  | some f =>
    match (searchPaths cwd f).find? fsExists with
    | some p => .ok p
    | none => .error ("Font file not found: ".toList ++ f)
  | none =>
    .ok (joinPath (joinPath cwd "fonts".toList)
      "SourceHanSerifJP-Light.otf".toList)

/-- JavaScript truthiness of `fontFile` in `load`: an absent or empty
string key resolves the bundled default font path. -/
def jsOrStrOpt (v : Option String) : Option String :=
  match v with
  | none => none
  | some s => if s = "" then none else some s

/-- `FontCache.get` including the load path: a hit refreshes
`lastAccessed`; a miss resolves a path, stats its size, evicts and
inserts. A failed resolution throws before any cache mutation. The cache
key is the font file string, or `default` when absent. -/
def cacheGetFs (fsExists : List Char → Bool) (sizeOf : List Char → Int)
    (cwd : List Char) (st : CacheState) (fontFile : Option String)
    (now : Nat) : Except (List Char) CacheState :=
  let cacheKey := jsOrStr fontFile "default"
  if st.entries.any (fun e => e.key = cacheKey) then
    .ok { st with entries := st.entries.map (fun e =>
        if e.key = cacheKey then { e with lastAccessed := now } else e) }
  else
    match resolveFontPath fsExists cwd
        ((jsOrStrOpt fontFile).map String.toList) with
    | .error e => .error e
    | .ok p => .ok (cacheLoad st cacheKey (sizeOf p) now)

/-- C8: on a cache miss with an explicit font key, the candidate paths
are probed in exactly the order (a) sanitized key under the fonts root,
(b) sanitized key under the uploads root, (c) basename under the fonts
root, (d) basename under the uploads root, and the first existing file
wins; the sanitized key contains no parent/current-directory or empty
segments; with no key the fixed bundled default path is used; when no
candidate exists the operation fails with the font-not-found error and
the cache state is not changed (no entry inserted). -/
theorem C8_font_path_resolution :
    (∀ cwd f : List Char,
      searchPaths cwd f
        = [ joinPath (joinPath cwd "fonts".toList) (sanitizePath f),
            joinPath (joinPath cwd "uploads".toList) (sanitizePath f),
            joinPath (joinPath cwd "fonts".toList)
              (basename (sanitizePath f)),
            joinPath (joinPath cwd "uploads".toList)
              (basename (sanitizePath f)) ])
    ∧ (∀ f : List Char, ∃ parts : List (List Char),
        sanitizePath f = joinSegs parts
        ∧ ∀ part ∈ parts, part ≠ ['.', '.'] ∧ part ≠ ['.'] ∧ part ≠ [])
    ∧ (∀ (fsExists : List Char → Bool) (cwd f p : List Char),
        resolveFontPath fsExists cwd (some f) = .ok p →
        fsExists p = true
        ∧ ∃ pre post, searchPaths cwd f = pre ++ p :: post
            ∧ ∀ q ∈ pre, fsExists q = false)
    ∧ (∀ (fsExists : List Char → Bool) (cwd : List Char),
        resolveFontPath fsExists cwd none
          = .ok (joinPath (joinPath cwd "fonts".toList)
              "SourceHanSerifJP-Light.otf".toList))
    ∧ (∀ (fsExists : List Char → Bool) (sizeOf : List Char → Int)
        (cwd : List Char) (st : CacheState) (f : String) (now : Nat),
        (∀ q ∈ searchPaths cwd (jsOrStr (some f) "default").toList,
          fsExists q = false) →
        f ≠ "" →
        cacheGetFs fsExists sizeOf cwd st (some f) now
          = if st.entries.any (fun e => e.key = jsOrStr (some f) "default")
            then Except.ok { st with entries := st.entries.map (fun e =>
                if e.key = jsOrStr (some f) "default"
                then { e with lastAccessed := now } else e) }
            else Except.error ("Font file not found: ".toList ++ f.toList)) := by
  refine ⟨fun cwd f => rfl, ?_, ?_, fun fsExists cwd => rfl, ?_⟩
  · intro f
    refine ⟨(splitChars (fun c => c = '/' ∨ c = '\\')
        (stripLeadingParents (normalizePath f))).filter
        (fun part => part ≠ ['.', '.'] ∧ part ≠ ['.'] ∧ part ≠ []),
      rfl, ?_⟩
    intro part hpart
    have := List.of_mem_filter hpart
    simpa using this
  · intro fsExists cwd f p hok
    simp only [resolveFontPath] at hok
    cases hfind : (searchPaths cwd f).find? fsExists with
    | none =>
      rw [hfind] at hok
      exact absurd hok (by simp)
    | some q =>
      rw [hfind] at hok
      simp only [Except.ok.injEq] at hok
      subst hok
      obtain ⟨hp, pre, post, hsplit, hpre⟩ := List.find?_eq_some.1 hfind
      exact ⟨hp, pre, post, hsplit, fun q hq => by
        simpa using hpre q hq⟩
  · intro fsExists sizeOf cwd st f now hnone hf
    have hjs : jsOrStr (some f) "default" = f := by simp [jsOrStr, hf]
    have hfind : (searchPaths cwd f.toList).find? fsExists = none := by
      refine List.find?_eq_none.2 (fun x hx => ?_)
      rw [hjs] at hnone
      simp [hnone x hx]
    have hres : resolveFontPath fsExists cwd
        ((jsOrStrOpt (some f)).map String.toList)
        = .error ("Font file not found: ".toList ++ f.toList) := by
      have hopt : jsOrStrOpt (some f) = some f := by simp [jsOrStrOpt, hf]
      rw [hopt]
      simp only [Option.map_some', resolveFontPath, hfind]
    simp only [cacheGetFs]
    rw [hres]

/-- A filesystem with exactly one font file, under the uploads root. -/
def fsOnlyUploads : List Char → Bool := fun p => p = "/uploads/A.ttf".toList

/-- Witness for C8: with only `/uploads/A.ttf` on disk, the key
`sub/A.ttf` resolves to the uploads-root basename candidate, the three
earlier candidates all having been probed and found absent; on an empty
filesystem the get fails with the font-not-found error. -/
theorem C8_font_path_resolution_witness :
    (fsOnlyUploads (joinPath (joinPath [] "uploads".toList)
          (basename (sanitizePath "sub/A.ttf".toList))) = true
      ∧ ∃ pre post,
          searchPaths [] "sub/A.ttf".toList = pre
            ++ (joinPath (joinPath [] "uploads".toList)
                (basename (sanitizePath "sub/A.ttf".toList))) :: post
          ∧ ∀ q ∈ pre, fsOnlyUploads q = false)
    ∧ cacheGetFs (fun _ => false) (fun _ => 0) [] initCache
        (some "A.ttf") 5
      = Except.error ("Font file not found: ".toList ++ "A.ttf".toList) := by
  constructor
  · exact C8_font_path_resolution.2.2.1 fsOnlyUploads [] "sub/A.ttf".toList
      _ (by decide)
  · have h := C8_font_path_resolution.2.2.2.2 (fun _ => false) (fun _ => 0)
      [] initCache "A.ttf" 5 (fun q _ => rfl) (by decide)
    rw [h]
    decide

/-! ### Claim C9: multi-line left-alignment compensation -/

/-- `line.trim() === ''`: blank (empty or whitespace-only) lines. -/
def isBlank (l : List Char) : Bool := l.all (fun c => c.isWhitespace)

/-- The visual left-edge offset of a line: `null` for blank lines, else
the first character's glyph outline bounding-box left edge (x1) of
`glyph.getPath(0, 0, fontSize)`. -/
def firstCharOffset (f : Font) (fontSize : ℚ) (line : List Char) :
    Option ℚ :=
  if isBlank line then none
  else
    match line with
    | [] => none
    | c :: _ => some ((f.charToGlyph c).bx1 * fontSize)

/-- The textAlign-left compensation of `getMultilineD`: when at least one
line has an offset, shift each such line's x by
−(its offset − the minimum offset). -/
def applyLeftCompensation (f : Font) (fontSize : ℚ)
    (lines : List LineM) : List LineM :=
  let offsets := lines.map (fun l => firstCharOffset f fontSize l.text)
  let validOffsets := offsets.filterMap id
  if 0 < validOffsets.length then
    (lines.zip offsets).map (fun p =>
      match p.2 with
      | some off => { p.1 with x := p.1.x - (off - minListQ validOffsets) }
      | none => p.1)
  else lines

/-- `getMultilineD`, modelled up to the opaque glyph-path serialization:
the sequence of `font.getPath(lineText, x, baseline, fontSize, …)` calls
it makes, one per non-blank line, after multi-line metrics and (for
textAlign `left`) the visual left-edge compensation. The envelope
post-processing transforms the returned path data per line and does not
change these calls. -/
def getMultilineDCalls (f : Font) (text : List Char)
    (o : TextToSVGOptions) : Except String (List (List Char × ℚ × ℚ)) := do
  let mm ← getMultilineMetrics f text o
  let fontSize := jsOrQ o.fontSize 72
  let textAlign := jsOrStr o.textAlign "left"
  let lines1 := if textAlign = "left"
                then applyLeftCompensation f fontSize mm.lines
                else mm.lines
  pure ((lines1.filter (fun l => !isBlank l.text)).map
    (fun l => (l.text, l.x, l.baseline)))

/-- The list of valid (non-blank-line) offsets. -/
def validOffsetsOf (f : Font) (fontSize : ℚ) (lines : List LineM) : List ℚ :=
  (lines.map (fun l => firstCharOffset f fontSize l.text)).filterMap id

lemma zip_map_fuse {α : Type} (g : α → Option ℚ) (F : α → Option ℚ → α)
    (l : List α) :
    (l.zip (l.map g)).map (fun p => F p.1 p.2)
      = l.map (fun a => F a (g a)) := by
  induction l with
  | nil => rfl
  | cons a rest ih => simp [ih]

lemma applyLeftCompensation_eq_map (f : Font) (fontSize : ℚ)
    (lines : List LineM) :
    applyLeftCompensation f fontSize lines
      = lines.map (fun l =>
          match firstCharOffset f fontSize l.text with
          | some off => { l with x := l.x
              - (off - minListQ (validOffsetsOf f fontSize lines)) }
          | none => l) := by
  simp only [applyLeftCompensation]
  split
  · exact zip_map_fuse (fun l => firstCharOffset f fontSize l.text)
      (fun l o => match o with
        | some off => { l with x := l.x
            - (off - minListQ (validOffsetsOf f fontSize lines)) }
        | none => l) lines
  · rename_i hv
    have hall : ∀ l ∈ lines, firstCharOffset f fontSize l.text = none := by
      intro l hl
      by_contra hne
      obtain ⟨v, hv2⟩ := Option.ne_none_iff_exists'.1 hne
      have hmem : v ∈ (lines.map
          (fun l => firstCharOffset f fontSize l.text)).filterMap id := by
        simp only [List.mem_filterMap, List.mem_map]
        exact ⟨some v, ⟨l, hl, hv2⟩, rfl⟩
      exact hv (List.length_pos.2 (List.ne_nil_of_mem hmem))
    have hid : ∀ l ∈ lines,
        (match firstCharOffset f fontSize l.text with
          | some off => { l with x := l.x
              - (off - minListQ (validOffsetsOf f fontSize lines)) }
          | none => l) = l := by
      intro l hl
      rw [hall l hl]
    rw [List.map_congr_left hid]
    simp

lemma applyLeftCompensation_length (f : Font) (fontSize : ℚ)
    (lines : List LineM) :
    (applyLeftCompensation f fontSize lines).length = lines.length := by
  rw [applyLeftCompensation_eq_map]
  simp

lemma applyLeftCompensation_getElem_some (f : Font) (fontSize : ℚ)
    (lines : List LineM) (i : ℕ) (hi : i < lines.length) (off : ℚ)
    (hoff : firstCharOffset f fontSize (lines[i]).text = some off) :
    (applyLeftCompensation f fontSize lines).get
        ⟨i, by
          rw [applyLeftCompensation_length]
          exact hi⟩
      = { lines[i] with x := (lines[i]).x
          - (off - minListQ (validOffsetsOf f fontSize lines)) } := by
  have h := applyLeftCompensation_eq_map f fontSize lines
  rw [List.get_eq_getElem, List.getElem_of_eq h, List.getElem_map, hoff]

lemma applyLeftCompensation_getElem_none (f : Font) (fontSize : ℚ)
    (lines : List LineM) (i : ℕ) (hi : i < lines.length)
    (hoff : firstCharOffset f fontSize (lines[i]).text = none) :
    (applyLeftCompensation f fontSize lines).get
        ⟨i, by
          rw [applyLeftCompensation_length]
          exact hi⟩
      = lines[i] := by
  have h := applyLeftCompensation_eq_map f fontSize lines
  rw [List.get_eq_getElem, List.getElem_of_eq h, List.getElem_map, hoff]

lemma applyLeftCompensation_flush (f : Font) (fontSize : ℚ)
    (lines : List LineM) (x0 : ℚ)
    (hx : ∀ l ∈ lines, l.x = x0)
    (i j : ℕ) (hi : i < lines.length) (hj : j < lines.length)
    (offi offj : ℚ)
    (hoffi : firstCharOffset f fontSize (lines[i]).text = some offi)
    (hoffj : firstCharOffset f fontSize (lines[j]).text = some offj) :
    ((applyLeftCompensation f fontSize lines).get
        ⟨i, by
          rw [applyLeftCompensation_length]
          exact hi⟩).x + offi
    = ((applyLeftCompensation f fontSize lines).get
        ⟨j, by
          rw [applyLeftCompensation_length]
          exact hj⟩).x + offj := by
  rw [applyLeftCompensation_getElem_some f fontSize lines i hi offi hoffi,
    applyLeftCompensation_getElem_some f fontSize lines j hj offj hoffj]
  simp only [hx lines[i] (lines.getElem_mem hi),
    hx lines[j] (lines.getElem_mem hj)]
  ring

/-- C9: in multi-line horizontal path synthesis with textAlign `left`,
each non-blank line's first-character outline left edge (x1) is taken,
the minimum across the lines is found, and each such line's x is shifted
by −(its offset − minimum) — so lines whose x positions agree before
compensation become visually flush-left; blank lines have no offset and
emit no path-synthesis call. -/
theorem C9_left_alignment_compensation :
    (∀ (f : Font) (fontSize : ℚ) (lines : List LineM) (i : ℕ)
        (hi : i < lines.length) (off : ℚ),
      firstCharOffset f fontSize (lines[i]).text = some off →
      (applyLeftCompensation f fontSize lines).get
          ⟨i, by
            rw [applyLeftCompensation_length]
            exact hi⟩
        = { lines[i] with x := (lines[i]).x
            - (off - minListQ (validOffsetsOf f fontSize lines)) })
    ∧ (∀ (f : Font) (fontSize : ℚ) (line : List Char),
        isBlank line = true → firstCharOffset f fontSize line = none)
    ∧ (∀ (f : Font) (fontSize : ℚ) (lines : List LineM) (x0 : ℚ),
        (∀ l ∈ lines, l.x = x0) →
        ∀ (i j : ℕ) (hi : i < lines.length) (hj : j < lines.length)
          (offi offj : ℚ),
          firstCharOffset f fontSize (lines[i]).text = some offi →
          firstCharOffset f fontSize (lines[j]).text = some offj →
          ((applyLeftCompensation f fontSize lines).get
              ⟨i, by
                rw [applyLeftCompensation_length]
                exact hi⟩).x + offi
          = ((applyLeftCompensation f fontSize lines).get
              ⟨j, by
                rw [applyLeftCompensation_length]
                exact hj⟩).x + offj)
    ∧ (∀ (f : Font) (text : List Char) (o : TextToSVGOptions)
        (mm : MLMetrics),
        getMultilineMetrics f text o = Except.ok mm →
        jsOrStr o.textAlign "left" = "left" →
        getMultilineDCalls f text o = Except.ok
          (((applyLeftCompensation f (jsOrQ o.fontSize 72) mm.lines).filter
              (fun l => !isBlank l.text)).map
            (fun l => (l.text, l.x, l.baseline)))
        ∧ ∀ c ∈ (((applyLeftCompensation f (jsOrQ o.fontSize 72)
            mm.lines).filter (fun l => !isBlank l.text)).map
              (fun l => (l.text, l.x, l.baseline))),
            isBlank c.1 = false) := by
  refine ⟨?_, ?_, applyLeftCompensation_flush, ?_⟩
  · intro f fontSize lines i hi off hoff
    exact applyLeftCompensation_getElem_some f fontSize lines i hi off hoff
  · intro f fontSize line hb
    simp [firstCharOffset, hb]
  · intro f text o mm hmm hta
    constructor
    · simp only [getMultilineDCalls, hmm, hta, bind, Except.bind, if_pos]
      rfl
    · intro c hc
      simp only [List.mem_map, List.mem_filter] at hc
      obtain ⟨l, ⟨-, hbl⟩, hlc⟩ := hc
      rw [← hlc]
      simpa using hbl

/-- A font with differing left side bearings: `A` has outline x1 = 100
font units (0.1 per unit font size), every other glyph x1 = 20. -/
def sideBearingFont : Font :=
  { unitsPerEm := 1000, ascender := 800, descender := -200,
    charToGlyph := fun c =>
      { unicode := c.toNat, advanceWidth := 600,
        bx1 := if c = 'A' then 0.1 else 0.02,
        by1 := -0.8, bx2 := 0.6, by2 := 0 },
    getKerningValue := fun _ _ => 0 }

/-- Line metrics for the line `A` at the block origin. -/
def c9line0 : LineM :=
  { text := ['A'], x := 0, y := 0, baseline := 80, width := 60,
    height := 100, ascender := 80, descender := -20 }

/-- Line metrics for the line `B` at the block origin. -/
def c9line1 : LineM :=
  { text := ['B'], x := 0, y := 120, baseline := 200, width := 60,
    height := 100, ascender := 80, descender := -20 }

/-- Witness for C9: with side bearings 10 and 2 at fontSize 100, line
`A`'s x is shifted by −(10 − 2) and the two compensated lines share one
visual left edge. -/
theorem C9_left_alignment_compensation_witness :
    (applyLeftCompensation sideBearingFont 100 [c9line0, c9line1]).get
        ⟨0, by
          rw [applyLeftCompensation_length]
          norm_num⟩
      = { c9line0 with x := c9line0.x
          - (10 - minListQ (validOffsetsOf sideBearingFont 100
              [c9line0, c9line1])) }
    ∧ ((applyLeftCompensation sideBearingFont 100 [c9line0, c9line1]).get
        ⟨0, by
          rw [applyLeftCompensation_length]
          norm_num⟩).x + 10
      = ((applyLeftCompensation sideBearingFont 100 [c9line0, c9line1]).get
        ⟨1, by
          rw [applyLeftCompensation_length]
          norm_num⟩).x + 2 := by
  constructor
  · exact C9_left_alignment_compensation.1 sideBearingFont 100
      [c9line0, c9line1] 0 (by norm_num) 10
      (by
        simp +decide [firstCharOffset, isBlank, sideBearingFont, c9line0]
        norm_num)
  · exact C9_left_alignment_compensation.2.2.1 sideBearingFont 100
      [c9line0, c9line1] 0
      (by
        intro l hl
        fin_cases hl <;> rfl)
      0 1 (by norm_num) (by norm_num) 10 2
      (by
        simp +decide [firstCharOffset, isBlank, sideBearingFont, c9line0]
        norm_num)
      (by
        simp +decide [firstCharOffset, isBlank, sideBearingFont, c9line1]
        norm_num)

/-! ### Claim C10: caller-visible options mutation -/

/-- The new envelope after the in-place arc mutation of `getD` (and, per
line, of `getMultilineD`): always overwrite `envelope.arc.textWidth` with
the computed width; overwrite `centerX` / `centerY` only when falsy
(absent or 0); untouched when there is no envelope or no arc. -/
def updateArcEnvelope (envOpt : Option EnvelopeOptions)
    (width x baseline : ℚ) : Option EnvelopeOptions :=
  match envOpt with
  | none => none
  | some env =>
    match env.arc with
    | none => some env
    | some arc =>
      some ({ env with arc := some ({ arc with
        textWidth := some width,
        centerX := if jsTruthyQ arc.centerX then arc.centerX
                   else some (x + width / 2),
        centerY := if jsTruthyQ arc.centerY then arc.centerY
                   else some baseline }) })

/-- The caller's options after `getD`'s in-place arc mutation. -/
def updateArcOptions (o : TextToSVGOptions) (width x baseline : ℚ) :
    TextToSVGOptions :=
  { o with envelope := updateArcEnvelope o.envelope width x baseline }

/-- The caller-visible effect of `getD` on the caller's options object:
vertical synthesis leaves it untouched; multi-line horizontal mutates the
arc once per emitted line; single-line horizontal computes metrics and
mutates the arc once. A thrown metrics error propagates before any
mutation. -/
def getDOptionsEffect (f : Font) (text : List Char)
    (o : TextToSVGOptions) : Except String TextToSVGOptions :=
  if text.contains '\n' then
    if jsOrStr o.writingMode "horizontal" = "vertical" then
      (getVerticalMultilineMetrics f text o).map (fun _ => o)
    else
      (getMultilineMetrics f text o).map (fun mm =>
        let fontSize := jsOrQ o.fontSize 72
        let textAlign := jsOrStr o.textAlign "left"
        let lines1 := if textAlign = "left"
                      then applyLeftCompensation f fontSize mm.lines
                      else mm.lines
        (lines1.filter (fun l => !isBlank l.text)).foldl
          (fun acc l => updateArcOptions acc l.width l.x l.baseline) o)
  else if jsOrStr o.writingMode "horizontal" = "vertical" then .ok o
  else
    (getMetrics f text o).map (fun m =>
      updateArcOptions o m.width m.x m.baseline)

/-- The caller-visible effect of `getSVG` on the caller's options object:
`getSVG` rebinds `options` to `JSON.parse(JSON.stringify(options))` on
entry, so the later mutations (`options.x = options.x || 0`, the anchor
override, and `getD`'s arc mutation) apply to that copy only and the
caller's object is left unchanged. -/
def getSVGOptionsEffect (_f : Font) (_text : List Char)
    (o : TextToSVGOptions) : TextToSVGOptions := o

/-- The caller-visible effect of `getDebugSVG` on the caller's options
object: identical deep-copy-on-entry behavior to `getSVG`. -/
def getDebugSVGOptionsEffect (_f : Font) (_text : List Char)
    (o : TextToSVGOptions) : TextToSVGOptions := o

lemma getWidthAux_congr (f : Font) (o1 o2 : TextToSVGOptions)
    (fontSize fontScale : ℚ) (kern : Bool)
    (h : spacingTerm o1 fontSize = spacingTerm o2 fontSize)
    (gs : List Glyph) :
    getWidthAux f o1 fontSize fontScale kern gs
      = getWidthAux f o2 fontSize fontScale kern gs := by
  induction gs with
  | nil => rfl
  | cons g rest ih => simp only [getWidthAux, h, ih]

lemma getSingleLineMetrics_envelope_invariant (f : Font) (text : List Char)
    (o : TextToSVGOptions) (env : Option EnvelopeOptions) :
    getSingleLineMetrics f text { o with envelope := env }
      = getSingleLineMetrics f text o := by
  have hw : getWidth f text { o with envelope := env }
      = getWidth f text o := by
    simp only [getWidth]
    exact getWidthAux_congr f { o with envelope := env } o
      (jsOrQ o.fontSize 72) (1 / f.unitsPerEm * jsOrQ o.fontSize 72)
      (o.kerning.getD true) rfl (f.stringToGlyphs text)
  simp only [getSingleLineMetrics]
  rw [hw]

lemma updateArcOptions_envelope_only (o : TextToSVGOptions)
    (w x b : ℚ) :
    updateArcOptions o w x b
      = { o with envelope := (updateArcOptions o w x b).envelope } := rfl

lemma center_recheck (c : Option ℚ) (v : ℚ) :
    (if jsTruthyQ (if jsTruthyQ c then c else some v)
     then (if jsTruthyQ c then c else some v) else some v)
    = (if jsTruthyQ c then c else some v) := by
  by_cases hc : jsTruthyQ c
  · simp [hc]
  · simp only [hc, if_false]
    by_cases hv : jsTruthyQ (some v) <;> simp [hv]

lemma updateArcEnvelope_idem (e : Option EnvelopeOptions) (w x b : ℚ) :
    updateArcEnvelope (updateArcEnvelope e w x b) w x b
      = updateArcEnvelope e w x b := by
  cases e with
  | none => rfl
  | some env =>
    cases harc : env.arc with
    | none => simp [updateArcEnvelope, harc]
    | some arc =>
      simp only [updateArcEnvelope, harc]
      rw [center_recheck arc.centerX (x + w / 2), center_recheck arc.centerY b]

lemma updateArcOptions_idem (o : TextToSVGOptions) (w x b : ℚ) :
    updateArcOptions (updateArcOptions o w x b) w x b
      = updateArcOptions o w x b := by
  unfold updateArcOptions
  simp only [updateArcEnvelope_idem]

/-- C10: `getSVG` and `getDebugSVG` leave the caller's options unchanged
(both deep-copy on entry), whereas a direct `getD` call on single-line
horizontal text with `envelope.arc` present mutates the caller's options:
textWidth is overwritten with the metrics width, and centerX/centerY are
overwritten exactly when absent or 0; a second `getD` with the resulting
options is a no-op on them, reusing the arc data fixed by the first
call. -/
theorem C10_options_mutation_frame :
    (∀ (f : Font) (text : List Char) (o : TextToSVGOptions),
      getSVGOptionsEffect f text o = o
      ∧ getDebugSVGOptionsEffect f text o = o)
    ∧ (∀ (f : Font) (text : List Char) (o : TextToSVGOptions)
        (env : EnvelopeOptions) (arc : ArcOptions) (m : TMetrics),
        text.contains '\n' = false →
        jsOrStr o.writingMode "horizontal" = "horizontal" →
        o.envelope = some env → env.arc = some arc →
        getMetrics f text o = Except.ok m →
        getDOptionsEffect f text o = Except.ok
          ({ o with envelope := some ({ env with arc := some ({ arc with
              textWidth := some m.width,
              centerX := if jsTruthyQ arc.centerX then arc.centerX
                         else some (m.x + m.width / 2),
              centerY := if jsTruthyQ arc.centerY then arc.centerY
                         else some m.baseline }) }) }))
    ∧ (∀ (f : Font) (text : List Char) (o o1 : TextToSVGOptions),
        text.contains '\n' = false →
        jsOrStr o.writingMode "horizontal" = "horizontal" →
        getDOptionsEffect f text o = Except.ok o1 →
        getDOptionsEffect f text o1 = Except.ok o1) := by
  have hred : ∀ (f : Font) (text : List Char) (o : TextToSVGOptions),
      text.contains '\n' = false →
      jsOrStr o.writingMode "horizontal" = "horizontal" →
      getDOptionsEffect f text o = (getMetrics f text o).map
        (fun m => updateArcOptions o m.width m.x m.baseline) := by
    intro f text o hnl hwm
    have hnl2 : ¬ ('\n' ∈ text) := by simpa using hnl
    simp +decide [getDOptionsEffect, hnl2, hwm]
  refine ⟨fun f text o => ⟨rfl, rfl⟩, ?_, ?_⟩
  · intro f text o env arc m hnl hwm henv harc hm
    rw [hred f text o hnl hwm, hm]
    simp only [Except.map, Except.ok.injEq]
    unfold updateArcOptions updateArcEnvelope
    rw [henv]
    simp only [harc]
  · intro f text o o1 hnl hwm hok
    rw [hred f text o hnl hwm] at hok
    cases hm : getMetrics f text o with
    | error e =>
      rw [hm] at hok
      exact absurd hok (by simp [Except.map])
    | ok m =>
      rw [hm] at hok
      simp only [Except.map, Except.ok.injEq] at hok
      have ho1env : o1 = { o with envelope := o1.envelope } := by
        rw [← hok]
        exact updateArcOptions_envelope_only o m.width m.x m.baseline
      have hwm1 : jsOrStr o1.writingMode "horizontal" = "horizontal" := by
        rw [ho1env]
        exact hwm
      have hm1 : getMetrics f text o1 = Except.ok m := by
        rw [getMetrics_single_horizontal f text o1 hnl hwm1, ho1env,
          getSingleLineMetrics_envelope_invariant]
        rw [getMetrics_single_horizontal f text o hnl hwm] at hm
        exact hm
      rw [hred f text o1 hnl hwm1, hm1]
      simp only [Except.map, Except.ok.injEq]
      rw [← hok]
      exact updateArcOptions_idem o m.width m.x m.baseline

/-- Arc options as a caller would pass them: an angle only. -/
def c10arc : ArcOptions := { angle := 30 }

/-- Envelope options holding `c10arc`. -/
def c10env : EnvelopeOptions := { arc := some c10arc }

/-- Caller options with an arc envelope and fontSize 100. -/
def c10opts : TextToSVGOptions :=
  { fontSize := some 100, envelope := some c10env }

/-- The arc options after one `getD` call on the fixture font and text
`A`: textWidth filled with the metrics width 60, center defaulted to the
text midpoint (30) and the baseline (0). -/
def c10arcAfter : ArcOptions :=
  { angle := 30, textWidth := some 60, centerX := some 30,
    centerY := some 0 }

/-- The caller options after that `getD` call. -/
def c10optsAfter : TextToSVGOptions :=
  { fontSize := some 100, envelope := some ({ arc := some c10arcAfter }) }

/-- Witness for C10: on the fixture font and text `A`, a first `getD`
fills the caller's arc options in place, and a second `getD` with the
mutated options leaves them unchanged. -/
theorem C10_options_mutation_frame_witness :
    getDOptionsEffect fixtureFont ['A'] c10opts = Except.ok c10optsAfter
    ∧ getDOptionsEffect fixtureFont ['A'] c10optsAfter
        = Except.ok c10optsAfter := by
  have hm : getMetrics fixtureFont ['A'] c10opts
      = Except.ok { x := 0, y := -80, baseline := 0, width := 60,
                    height := 100, ascender := 80, descender := -20 } := by
    simp +decide [getMetrics, getSingleLineMetrics, getWidth, getWidthAux,
      getHeight, parseAnchorOption, scanFirstCI, matchAltCI, matchTokenCI,
      hAnchorTokens, vAnchorTokens, anchorShiftX, anchorShiftY, jsOrQ,
      jsOrStr, jsTruthyQ, spacingTerm, fixtureFont, fixtureGlyph, c10opts,
      Font.stringToGlyphs, bind, Except.bind, pure, Except.pure]
    norm_num
  have h2 := C10_options_mutation_frame.2.1 fixtureFont ['A'] c10opts
    c10env c10arc
    { x := 0, y := -80, baseline := 0, width := 60, height := 100,
      ascender := 80, descender := -20 }
    (by decide) rfl rfl rfl hm
  have h2' : getDOptionsEffect fixtureFont ['A'] c10opts
      = Except.ok c10optsAfter := by
    rw [h2]
    norm_num [c10opts, c10optsAfter, c10env, c10arc, c10arcAfter, jsTruthyQ]
  exact ⟨h2', C10_options_mutation_frame.2.2 fixtureFont ['A'] c10opts
    c10optsAfter (by decide) rfl h2'⟩

end FontToSvg
